import Mathlib

/-!
Shallow embedding of the memoization cache (`app/core/cache_manager.py`) and
the performance monitor (`app/core/performance_monitor.py`) of the
Neural-Code-Review-Assistant repository, together with theorems settling the
spec claims about them.

Modelling conventions:
* Python `time.time()` is an external input; every operation takes the current
  time `now : ℚ` explicitly (one instant per call).
* Python dictionaries (insertion ordered, unique keys) are association lists
  `List (String × α)`; assignment `d[k] = v` keeps the position of an existing
  key and appends a fresh one, exactly as CPython does.
* Python values handled by the decorator (`list` / `dict` / anything else) are
  the inductive `PyVal`; `isinstance` tests become constructor matches.
* `hashlib.sha256(s.encode()).hexdigest()[:16]` is an environment primitive:
  definitions take the hex-digest function `h : String → String` as a
  parameter, since no claim depends on concrete SHA-256 digits (claim C6 is
  about the pre-hash encoding, which is modelled exactly).
* Exceptions raised by a wrapped compute function are modelled with `Except`.
-/

namespace CacheManager

/-- Python values as far as `cached_analysis` inspects them: lists, string-keyed
dicts (insertion-ordered association lists), and scalars (strings, numbers,
booleans, `None`). -/
inductive PyVal : Type where
  | list (xs : List PyVal)
  | dict (fields : List (String × PyVal))
  | str (s : String)
  | num (q : ℚ)
  | bool (b : Bool)
  | none
deriving Repr

/-- CPython dict assignment `d[k] = v`: overwrite in place if the key exists,
otherwise append at the end. -/
def dictSet {α : Type} (d : List (String × α)) (k : String) (v : α) :
    List (String × α) :=
  if (d.lookup k).isSome then
    d.map (fun p => if p.1 = k then (k, v) else p)
  else
    d ++ [(k, v)]

/-- CPython `del d[k]` (also models the guarded `if k in d: del d[k]`):
remove every binding of `k` (for a well-formed dict there is at most one). -/
def dictDel {α : Type} (d : List (String × α)) (k : String) :
    List (String × α) :=
  d.filter (fun p => p.1 ≠ k)

/-- `d.get(k, dflt)`. -/
def dictGetD {α : Type} (d : List (String × α)) (k : String) (dflt : α) : α :=
  (d.lookup k).getD dflt

/-- One cache entry, the dict built in `SmartCacheManager.set`:
`{"result": …, "timestamp": …, "filename": …, "analysis_type": …, "code_size": …}`. -/
structure CacheEntry : Type where
  result : PyVal
  timestamp : ℚ
  filename : String
  analysis_type : String
  code_size : Nat
deriving Repr

/-- The state of a `SmartCacheManager` instance: configuration read at
construction plus the two dicts and the two counters. -/
structure CacheState : Type where
  cache_enabled : Bool
  cache_ttl : ℤ
  max_cache_size : Nat
  cache : List (String × CacheEntry)
  access_times : List (String × ℚ)
  hit_count : Nat
  miss_count : Nat
deriving Repr

/-- `SmartCacheManager.__init__`: empty dicts, zero counters, configuration
from the environment. -/
def initState (enabled : Bool) (ttl : ℤ) (maxSize : Nat) : CacheState :=
  { cache_enabled := enabled
    cache_ttl := ttl
    max_cache_size := maxSize
    cache := []
    access_times := []
    hit_count := 0
    miss_count := 0 }

/-- The string hashed by `_generate_cache_key`:
`f"{code}|{filename}|{analysis_type}"`. -/
def cacheKeyPreimage (code filename analysis_type : String) : String :=
  code ++ "|" ++ filename ++ "|" ++ analysis_type

/-- `SmartCacheManager._generate_cache_key`; `h` stands for the primitive
`lambda s: hashlib.sha256(s.encode()).hexdigest()[:16]`. -/
def generate_cache_key (h : String → String)
    (code filename analysis_type : String) : String :=
  h (cacheKeyPreimage code filename analysis_type)

/-- `SmartCacheManager._is_cache_valid`. -/
def is_cache_valid (st : CacheState) (entry : CacheEntry) (now : ℚ) : Bool :=
  if ¬ st.cache_enabled then
    false
  else
    decide (now - entry.timestamp < (st.cache_ttl : ℚ))

/-- The keys collected by the expiry loop of `_cleanup_old_entries`:
entries with `(now - timestamp) > ttl`. -/
def expiredKeys (st : CacheState) (now : ℚ) : List String :=
  (st.cache.filter (fun p => decide ((st.cache_ttl : ℚ) < now - p.2.timestamp))).map
    Prod.fst

/-- Stable insertion step for `sorted(self._access_times.items(), key=lambda x: x[1])`:
a later element with an equal time goes after earlier ones, as in Python's
stable sort. -/
def insertByTime (p : String × ℚ) : List (String × ℚ) → List (String × ℚ)
  | [] => [p]
  | q :: qs => if p.2 < q.2 then p :: q :: qs else q :: insertByTime p qs

/-- `sorted(items, key=lambda x: x[1])`: stable ascending sort by the time
component. -/
def sortByTime (l : List (String × ℚ)) : List (String × ℚ) :=
  l.foldl (fun acc p => insertByTime p acc) []

/-- Delete a list of keys from both dicts, as the two `for key in …: del …`
loops do. -/
def deleteKeys (st : CacheState) (ks : List String) : CacheState :=
  ks.foldl
    (fun s k =>
      { s with cache := dictDel s.cache k, access_times := dictDel s.access_times k })
    st

/-- `SmartCacheManager._cleanup_old_entries`: drop expired entries, then, if
still over `max_cache_size`, drop the entries with the oldest access times
until exactly `max_cache_size` remain. -/
def cleanup_old_entries (st : CacheState) (now : ℚ) : CacheState :=
  let st1 := deleteKeys st (expiredKeys st now)
  if st1.cache.length > st1.max_cache_size then
    let sorted_keys := sortByTime st1.access_times
    let keys_to_remove :=
      (sorted_keys.take (st1.cache.length - st1.max_cache_size)).map Prod.fst
    deleteKeys st1 keys_to_remove
  else
    st1

/-- The body of `SmartCacheManager.get` after the cache key is computed. -/
def get_key (st : CacheState) (cache_key : String) (now : ℚ) :
    Option PyVal × CacheState :=
  if ¬ st.cache_enabled then
    (Option.none, st)
  else
    match st.cache.lookup cache_key with
    | Option.some entry =>
        if is_cache_valid st entry now then
          (Option.some entry.result,
            { st with
                access_times := dictSet st.access_times cache_key now
                hit_count := st.hit_count + 1 })
        else
          (Option.none,
            { st with
                cache := dictDel st.cache cache_key
                access_times := dictDel st.access_times cache_key
                miss_count := st.miss_count + 1 })
    | Option.none => (Option.none, { st with miss_count := st.miss_count + 1 })

/-- `SmartCacheManager.get`. -/
def get (h : String → String) (st : CacheState)
    (code filename analysis_type : String) (now : ℚ) :
    Option PyVal × CacheState :=
  get_key st (generate_cache_key h code filename analysis_type) now

/-- The body of `SmartCacheManager.set` after the cache key is computed. -/
def set_key (st : CacheState) (cache_key : String)
    (code filename analysis_type : String) (result : PyVal) (now : ℚ) :
    CacheState :=
  if ¬ st.cache_enabled then
    st
  else
    let st1 := cleanup_old_entries st now
    let entry : CacheEntry :=
      { result := result
        timestamp := now
        filename := filename
        analysis_type := analysis_type
        code_size := code.length }
    { st1 with
        cache := dictSet st1.cache cache_key entry
        access_times := dictSet st1.access_times cache_key now }

/-- `SmartCacheManager.set`. -/
def set (h : String → String) (st : CacheState)
    (code filename analysis_type : String) (result : PyVal) (now : ℚ) :
    CacheState :=
  set_key st (generate_cache_key h code filename analysis_type)
    code filename analysis_type result now

/-- `SmartCacheManager.clear_cache`. -/
def clear_cache (st : CacheState) : CacheState :=
  { st with cache := [], access_times := [], hit_count := 0, miss_count := 0 }

/-- `SmartCacheManager.get_cache_entries_by_type`: count every stored entry by
its `analysis_type` field. -/
def get_cache_entries_by_type (st : CacheState) : List (String × Nat) :=
  st.cache.foldl
    (fun acc p =>
      dictSet acc p.2.analysis_type (dictGetD acc p.2.analysis_type 0 + 1))
    []

/-- Python `round(x, 2)` on the exact rational value. -/
def round2 (x : ℚ) : ℚ :=
  (round (x * 100) : ℤ) / 100

mutual

/-- Length of the JSON serialization of a value, modelling
`len(json.dumps(entry, default=str))` structurally (no claim depends on the
exact byte count). -/
def jsonLen : PyVal → Nat
  | PyVal.list xs => 2 + jsonLenList xs
  | PyVal.dict fs => 2 + jsonLenFields fs
  | PyVal.str s => s.length + 2
  | PyVal.num _ => 4
  | PyVal.bool _ => 5
  | PyVal.none => 4

/-- Serialized length of the elements of a JSON array. -/
def jsonLenList : List PyVal → Nat
  | [] => 0
  | v :: vs => jsonLen v + 2 + jsonLenList vs

/-- Serialized length of the fields of a JSON object. -/
def jsonLenFields : List (String × PyVal) → Nat
  | [] => 0
  | p :: ps => p.1.length + 4 + jsonLen p.2 + 2 + jsonLenFields ps

end

/-- `SmartCacheManager._estimate_memory_usage`: summed serialized entry sizes,
converted to MB and rounded. -/
def estimate_memory_usage (st : CacheState) : ℚ :=
  let total_size :=
    st.cache.foldl
      (fun n p =>
        n + jsonLen (PyVal.dict
          [("result", p.2.result), ("timestamp", PyVal.num p.2.timestamp),
           ("filename", PyVal.str p.2.filename),
           ("analysis_type", PyVal.str p.2.analysis_type),
           ("code_size", PyVal.num p.2.code_size)]))
      0
  round2 ((total_size : ℚ) / (1024 * 1024))

/-- The dict returned by `SmartCacheManager.get_cache_stats`. -/
structure CacheStats : Type where
  enabled : Bool
  total_requests : Nat
  cache_hits : Nat
  cache_misses : Nat
  hit_rate_percent : ℚ
  cache_size : Nat
  max_cache_size : Nat
  ttl_seconds : ℤ
  memory_usage_mb : ℚ
deriving Repr

/-- `SmartCacheManager.get_cache_stats`. -/
def get_cache_stats (st : CacheState) : CacheStats :=
  let total_requests := st.hit_count + st.miss_count
  let hit_rate : ℚ :=
    if total_requests > 0 then (st.hit_count : ℚ) / total_requests * 100 else 0
  { enabled := st.cache_enabled
    total_requests := total_requests
    cache_hits := st.hit_count
    cache_misses := st.miss_count
    hit_rate_percent := round2 hit_rate
    cache_size := st.cache.length
    max_cache_size := st.max_cache_size
    ttl_seconds := st.cache_ttl
    memory_usage_mb := estimate_memory_usage st }

/-- The annotation step of the `cached_analysis` wrapper on a freshly computed
result: a list is wrapped into an insights dict, a dict is copied and annotated
in place, anything else is passed through untouched. `elapsed` is the measured
`execution_time` in seconds. -/
def annotateResult (analysis_type : String) (elapsed : ℚ) : PyVal → PyVal
  | PyVal.list xs =>
      PyVal.dict
        [("insights", PyVal.list xs),
         ("execution_time_ms", PyVal.num (round2 (elapsed * 1000))),
         ("cached", PyVal.bool false),
         ("analysis_type", PyVal.str analysis_type)]
  | PyVal.dict fs =>
      PyVal.dict
        (dictSet
          (dictSet
            (dictSet fs "execution_time_ms" (PyVal.num (round2 (elapsed * 1000))))
            "cached" (PyVal.bool false))
          "analysis_type" (PyVal.str analysis_type))
  | v => v

/-- Result of one `cached_analysis` wrapper call: the returned value (or the
exception propagated out of `func`), the cache state afterwards, and — as
instrumentation of the embedding — whether the wrapped `func` was invoked. -/
structure WrapperRun : Type where
  result : Except String PyVal
  state : CacheState
  invoked : Bool
deriving Repr

/-- The Python value the wrapper sees from `cache_manager.get`: the model's
`Option.none` (no value returned) and a stored `PyVal.none` result are the
same Python `None`. -/
def pyValOfOption : Option PyVal → PyVal
  | Option.some v => v
  | Option.none => PyVal.none

/-- Python's `x is not None` test on a value. -/
def isNotNone : PyVal → Bool
  | PyVal.none => false
  | _ => true

/-- The wrapper produced by the `cached_analysis(analysis_type)` decorator.
`compute` is the outcome `func` would produce (`Except.error` models `func`
raising), `elapsed` the wall time it takes, `now` the current time. The
looked-up value is returned only when it `is not None`, exactly as the
source's guard: a stored Python `None` result is indistinguishable from a
miss and falls through to the compute path. -/
def cached_analysis (h : String → String) (analysis_type : String)
    (code filename : String) (compute : Except String PyVal) (elapsed : ℚ)
    (now : ℚ) (st : CacheState) : WrapperRun :=
  match get h st code filename analysis_type now with
  | (res, st1) =>
      let cached_result := pyValOfOption res
      if isNotNone cached_result then
        { result := Except.ok cached_result, state := st1, invoked := false }
      else
        match compute with
        | Except.error e =>
            { result := Except.error e, state := st1, invoked := true }
        | Except.ok result =>
            let cache_result := annotateResult analysis_type elapsed result
            let st2 := set h st1 code filename analysis_type cache_result now
            { result := Except.ok cache_result, state := st2, invoked := true }

/-- Field lookup on a dict value (used to state claims about the annotation
metadata); `Option.none` when the value is not a dict or lacks the field. -/
def getField (v : PyVal) (k : String) : Option PyVal :=
  match v with
  | PyVal.dict fs => fs.lookup k
  | _ => Option.none

end CacheManager

namespace PerformanceMonitor

/-- Append to a `deque(maxlen=maxSamples)`: the oldest samples are dropped
from the front once the capacity is exceeded. -/
def dequeAppend (maxSamples : Nat) (xs : List ℚ) (x : ℚ) : List ℚ :=
  let ys := xs ++ [x]
  ys.drop (ys.length - maxSamples)

/-- The state of a `PerformanceMonitor` instance. `analysis_times` is the
`defaultdict` of per-operation windows (a window exists once
`record_analysis_time` has used its key). -/
structure PerfState : Type where
  max_samples : Nat
  response_times : List ℚ
  analysis_times : List (String × List ℚ)
  request_count : Nat
  error_count : Nat
  start_time : ℚ
deriving Repr

/-- `PerformanceMonitor.__init__`. -/
def initPerf (maxSamples : Nat) (start : ℚ) : PerfState :=
  { max_samples := maxSamples
    response_times := []
    analysis_times := []
    request_count := 0
    error_count := 0
    start_time := start }

/-- `PerformanceMonitor.record_response_time`. -/
def record_response_time (st : PerfState) (duration : ℚ) : PerfState :=
  { st with
      response_times := dequeAppend st.max_samples st.response_times duration
      request_count := st.request_count + 1 }

/-- `PerformanceMonitor.record_analysis_time`; the `defaultdict` creates an
empty window on first use of the key. -/
def record_analysis_time (st : PerfState) (analysis_type : String)
    (duration : ℚ) : PerfState :=
  let window := CacheManager.dictGetD st.analysis_times analysis_type []
  { st with
      analysis_times :=
        CacheManager.dictSet st.analysis_times analysis_type
          (dequeAppend st.max_samples window duration) }

/-- `PerformanceMonitor.record_error`. -/
def record_error (st : PerfState) : PerfState :=
  { st with error_count := st.error_count + 1 }

/-- Ascending insertion step of the stable sort modelling Python `sorted`. -/
def insertSorted (x : ℚ) : List ℚ → List ℚ
  | [] => [x]
  | y :: ys => if x < y then x :: y :: ys else y :: insertSorted x ys

/-- Python `sorted(data)` on rationals (stable, ascending). -/
def sortAsc (l : List ℚ) : List ℚ :=
  l.foldl (fun acc x => insertSorted x acc) []

/-- `statistics.mean`. -/
def listMean (l : List ℚ) : ℚ :=
  l.sum / l.length

/-- `statistics.median`: middle element of the sorted data, or the average of
the two middle elements for even length. -/
def listMedian (l : List ℚ) : ℚ :=
  let s := sortAsc l
  let n := s.length
  if n % 2 = 1 then
    s.getD (n / 2) 0
  else
    (s.getD (n / 2 - 1) 0 + s.getD (n / 2) 0) / 2

/-- `min(data)` for nonempty data (0 as an unused default). -/
def listMin (l : List ℚ) : ℚ :=
  match l with
  | [] => 0
  | x :: xs => xs.foldl min x

/-- `max(data)` for nonempty data (0 as an unused default). -/
def listMax (l : List ℚ) : ℚ :=
  match l with
  | [] => 0
  | x :: xs => xs.foldl max x

/-- `PerformanceMonitor._percentile`: 0 on empty data, otherwise the element
of the ascending sort at index `int(len * percentile / 100)`, capped at the
last index. -/
def percentile (data : List ℚ) (p : Nat) : ℚ :=
  if data.isEmpty then 0
  else
    let sorted_data := sortAsc data
    let index := sorted_data.length * p / 100
    sorted_data.getD (min index (sorted_data.length - 1)) 0

/-- The `response_stats` dict built when the response-time window is nonempty. -/
structure RespStats : Type where
  avg_ms : ℚ
  median_ms : ℚ
  min_ms : ℚ
  max_ms : ℚ
  p95_ms : ℚ
  p99_ms : ℚ
deriving Repr

/-- The dict returned by `PerformanceMonitor.get_performance_stats`;
`response_times = Option.none` models the empty `{}` placeholder, and
`analysis_breakdown` maps an operation kind to `(avg_ms, count)`. -/
structure PerfStats : Type where
  uptime_hours : ℚ
  total_requests : Nat
  error_count : Nat
  error_rate_percent : ℚ
  requests_per_hour : ℚ
  response_times : Option RespStats
  analysis_breakdown : List (String × (ℚ × Nat))
deriving Repr

/-- `PerformanceMonitor.get_performance_stats`. -/
def get_performance_stats (st : PerfState) (now : ℚ) : PerfStats :=
  let uptime_hours := (now - st.start_time) / 3600
  let response_stats : Option RespStats :=
    if st.response_times.isEmpty then Option.none
    else
      Option.some
        { avg_ms := CacheManager.round2 (listMean st.response_times * 1000)
          median_ms := CacheManager.round2 (listMedian st.response_times * 1000)
          min_ms := CacheManager.round2 (listMin st.response_times * 1000)
          max_ms := CacheManager.round2 (listMax st.response_times * 1000)
          p95_ms := CacheManager.round2 (percentile st.response_times 95 * 1000)
          p99_ms := CacheManager.round2 (percentile st.response_times 99 * 1000) }
  let analysis_breakdown :=
    st.analysis_times.foldl
      (fun acc p =>
        if p.2.isEmpty then acc
        else
          CacheManager.dictSet acc p.1
            (CacheManager.round2 (listMean p.2 * 1000), p.2.length))
      []
  let error_rate : ℚ :=
    if st.request_count > 0 then
      (st.error_count : ℚ) / st.request_count * 100
    else 0
  { uptime_hours := CacheManager.round2 uptime_hours
    total_requests := st.request_count
    error_count := st.error_count
    error_rate_percent := CacheManager.round2 error_rate
    requests_per_hour :=
      CacheManager.round2 ((st.request_count : ℚ) / max uptime_hours (1 / 100))
    response_times := response_stats
    analysis_breakdown := analysis_breakdown }

/-- The percentile computation as the spec words it: sort the window
ascending, take the element at index `floor(n * p / 100)` clamped to
`[0, n - 1]` (the lower clamp is implicit in ℕ). Stated from the spec text,
to be compared with `percentile` from the source. -/
def percentileSpec (data : List ℚ) (p : Nat) : ℚ :=
  (sortAsc data).getD (min (data.length * p / 100) (data.length - 1)) 0

/-- One call against the metrics recorder, for stating trace properties. -/
inductive PerfOp : Type where
  | response (d : ℚ)
  | analysis (t : String) (d : ℚ)
  | err
deriving DecidableEq, Repr

/-- Apply one recorder call to the state. -/
def applyOp (st : PerfState) : PerfOp → PerfState
  | PerfOp.response d => record_response_time st d
  | PerfOp.analysis t d => record_analysis_time st t d
  | PerfOp.err => record_error st

/-- Run a sequence of recorder calls. -/
def runOps (st : PerfState) (ops : List PerfOp) : PerfState :=
  ops.foldl applyOp st

/-- Whether a recorder call is a `record_error` call. -/
def isErrOp : PerfOp → Bool
  | PerfOp.err => true
  | _ => false

end PerformanceMonitor

namespace CacheManager

/-- Well-formedness of a cache state, maintained by every operation: the two
dicts hold exactly the same keys in the same order, without duplicates
(CPython dict keys are unique). -/
def CacheWf (st : CacheState) : Prop :=
  st.cache.map Prod.fst = st.access_times.map Prod.fst ∧
  (st.cache.map Prod.fst).Nodup

/-- Run a sequence of `get` lookups (key triple plus call time), keeping only
the evolving state. -/
def runGets (h : String → String) (st : CacheState)
    (qs : List (String × String × String × ℚ)) : CacheState :=
  qs.foldl (fun s q => (get h s q.1 q.2.1 q.2.2.1 q.2.2.2).2) st

/-- Run a sequence of `set_key` insertions; each element of `pairs` is
(cache key, call time, stored value). -/
def insertRun (st : CacheState) (pairs : List (String × ℚ × PyVal))
    (code filename analysis_type : String) : CacheState :=
  pairs.foldl
    (fun s p => set_key s p.1 code filename analysis_type p.2.2 p.2.1)
    st

/-- Whether the decorator can annotate a value in place (`isinstance(result,
list)` or `isinstance(result, dict)` succeeds). -/
def isAnnotatable : PyVal → Bool
  | PyVal.list _ => true
  | PyVal.dict _ => true
  | _ => false

/-- The suffix of the last `n` elements of a list. -/
def tailN {α : Type} (n : Nat) (l : List α) : List α :=
  l.drop (l.length - n)

/-- The cache state whose dicts hold exactly the entries described by
`pairs` (key, insertion time, value), in order, with zeroed counters: the
shape reached by inserting distinct fresh keys. -/
def stateFromSuffix (ttl : ℤ) (maxSize : Nat)
    (code filename analysis_type : String)
    (pairs : List (String × ℚ × PyVal)) : CacheState :=
  { cache_enabled := true
    cache_ttl := ttl
    max_cache_size := maxSize
    cache := pairs.map (fun p =>
      (p.1, { result := p.2.2
              timestamp := p.2.1
              filename := filename
              analysis_type := analysis_type
              code_size := code.length }))
    access_times := pairs.map (fun p => (p.1, p.2.1))
    hit_count := 0
    miss_count := 0 }

/-- An enabled store with `ttl = 10` holding a single entry of type `sec`
inserted at time 0 — expired once the clock reaches 20. -/
def expiredStoreExample : CacheState :=
  { cache_enabled := true, cache_ttl := 10, max_cache_size := 100,
    cache := [("k", { result := PyVal.num 1, timestamp := 0, filename := "f",
                      analysis_type := "sec", code_size := 1 })],
    access_times := [("k", 0)], hit_count := 0, miss_count := 0 }

theorem lookup_cons_pair {α : Type} (a k : String) (b : α)
    (l : List (String × α)) :
    List.lookup k ((a, b) :: l) = if k = a then Option.some b else List.lookup k l := by
  by_cases h : k = a
  · subst h
    simp [List.lookup]
  · simp [List.lookup, h, beq_eq_false_iff_ne.mpr h]

theorem lookup_map_replace_self {α : Type} (d : List (String × α))
    (k : String) (v : α) :
    (d.map (fun p => if p.1 = k then (k, v) else p)).lookup k
      = (d.lookup k).map (fun _ => v) := by
  induction d with
  | nil => simp
  | cons p d ih =>
      obtain ⟨a, b⟩ := p
      by_cases hk : a = k
      · subst hk
        simp [lookup_cons_pair]
      · have hne : k ≠ a := fun he => hk he.symm
        simp [hk, lookup_cons_pair, hne, ih]

theorem lookup_map_replace_ne {α : Type} (d : List (String × α))
    (k k' : String) (v : α) (hne : k' ≠ k) :
    (d.map (fun p => if p.1 = k then (k, v) else p)).lookup k'
      = d.lookup k' := by
  induction d with
  | nil => simp
  | cons p d ih =>
      obtain ⟨a, b⟩ := p
      by_cases hk : a = k
      · subst hk
        simp [lookup_cons_pair, hne, ih]
      · by_cases hk' : k' = a
        · subst hk'
          simp [hk, lookup_cons_pair]
        · simp [hk, lookup_cons_pair, hk', ih]

theorem lookup_append_of_none {α : Type} (l1 l2 : List (String × α))
    (k : String) (h : l1.lookup k = Option.none) :
    (l1 ++ l2).lookup k = l2.lookup k := by
  induction l1 with
  | nil => simp
  | cons p l1 ih =>
      obtain ⟨a, b⟩ := p
      by_cases hk : k = a
      · subst hk
        simp [lookup_cons_pair] at h
      · rw [lookup_cons_pair] at h
        simp only [List.cons_append, lookup_cons_pair, if_neg hk]
        exact ih (by simpa [hk] using h)

theorem lookup_append_left_pair {α : Type} (l1 l2 : List (String × α))
    (k : String) (w : α) (h : l1.lookup k = Option.some w) :
    (l1 ++ l2).lookup k = Option.some w := by
  induction l1 with
  | nil => simp at h
  | cons p l1 ih =>
      obtain ⟨a, b⟩ := p
      by_cases hk : k = a
      · subst hk
        rw [lookup_cons_pair] at h
        simp only [List.cons_append, lookup_cons_pair, if_pos rfl]
        simpa using h
      · rw [lookup_cons_pair, if_neg hk] at h
        simp only [List.cons_append, lookup_cons_pair, if_neg hk]
        exact ih h

theorem lookup_dictSet_self {α : Type} (d : List (String × α)) (k : String)
    (v : α) : (dictSet d k v).lookup k = Option.some v := by
  unfold dictSet
  split
  · rename_i hsome
    rw [lookup_map_replace_self]
    obtain ⟨w, hw⟩ := Option.isSome_iff_exists.mp hsome
    simp [hw]
  · rename_i hnone
    rw [lookup_append_of_none]
    · simp [lookup_cons_pair]
    · exact Option.not_isSome_iff_eq_none.mp hnone

theorem lookup_dictSet_ne {α : Type} (d : List (String × α)) (k k' : String)
    (v : α) (hne : k' ≠ k) :
    (dictSet d k v).lookup k' = d.lookup k' := by
  unfold dictSet
  split
  · exact lookup_map_replace_ne d k k' v hne
  · cases hl : d.lookup k' with
    | none =>
        rw [lookup_append_of_none _ _ _ hl]
        simp [lookup_cons_pair, hne]
    | some w =>
        rw [lookup_append_left_pair _ _ _ _ hl]

theorem lookup_dictDel_self {α : Type} (d : List (String × α)) (k : String) :
    (dictDel d k).lookup k = Option.none := by
  induction d with
  | nil => simp [dictDel]
  | cons p d ih =>
      obtain ⟨a, b⟩ := p
      by_cases hk : a = k
      · simpa [dictDel, hk] using ih
      · have hne : k ≠ a := fun he => hk he.symm
        simp only [dictDel, List.filter_cons] at ih ⊢
        simpa [hk, lookup_cons_pair, hne] using ih

theorem lookup_dictDel_ne {α : Type} (d : List (String × α)) (k k' : String)
    (hne : k' ≠ k) : (dictDel d k).lookup k' = d.lookup k' := by
  induction d with
  | nil => simp [dictDel]
  | cons p d ih =>
      obtain ⟨a, b⟩ := p
      by_cases hk : a = k
      · subst hk
        simpa [dictDel, lookup_cons_pair, hne] using ih
      · by_cases hk' : k' = a
        · subst hk'
          simp [dictDel, List.filter_cons, hk, lookup_cons_pair]
        · simp only [dictDel, List.filter_cons] at ih ⊢
          simpa [hk, lookup_cons_pair, hk'] using ih

theorem deleteKeys_config (st : CacheState) (ks : List String) :
    (deleteKeys st ks).cache_enabled = st.cache_enabled ∧
    (deleteKeys st ks).cache_ttl = st.cache_ttl ∧
    (deleteKeys st ks).max_cache_size = st.max_cache_size ∧
    (deleteKeys st ks).hit_count = st.hit_count ∧
    (deleteKeys st ks).miss_count = st.miss_count := by
  induction ks generalizing st with
  | nil => exact ⟨rfl, rfl, rfl, rfl, rfl⟩
  | cons k ks ih =>
      simpa [deleteKeys, List.foldl_cons] using
        ih { st with cache := dictDel st.cache k,
                     access_times := dictDel st.access_times k }

theorem cleanup_config (st : CacheState) (now : ℚ) :
    (cleanup_old_entries st now).cache_enabled = st.cache_enabled ∧
    (cleanup_old_entries st now).cache_ttl = st.cache_ttl ∧
    (cleanup_old_entries st now).max_cache_size = st.max_cache_size ∧
    (cleanup_old_entries st now).hit_count = st.hit_count ∧
    (cleanup_old_entries st now).miss_count = st.miss_count := by
  unfold cleanup_old_entries
  dsimp only
  have h1 := deleteKeys_config st (expiredKeys st now)
  split
  · have h2 := deleteKeys_config (deleteKeys st (expiredKeys st now))
      (((sortByTime (deleteKeys st (expiredKeys st now)).access_times).take
          ((deleteKeys st (expiredKeys st now)).cache.length -
            (deleteKeys st (expiredKeys st now)).max_cache_size)).map Prod.fst)
    exact ⟨h2.1.trans h1.1, h2.2.1.trans h1.2.1, h2.2.2.1.trans h1.2.2.1,
           h2.2.2.2.1.trans h1.2.2.2.1, h2.2.2.2.2.trans h1.2.2.2.2⟩
  · exact h1

theorem set_key_enabled (st : CacheState) (key code filename atype : String)
    (v : PyVal) (now : ℚ) (henab : st.cache_enabled = true) :
    set_key st key code filename atype v now
      = { cleanup_old_entries st now with
            cache := dictSet (cleanup_old_entries st now).cache key
              { result := v, timestamp := now, filename := filename,
                analysis_type := atype, code_size := code.length },
            access_times :=
              dictSet (cleanup_old_entries st now).access_times key now } := by
  simp [set_key, henab]

theorem set_key_config (st : CacheState) (key code filename atype : String)
    (v : PyVal) (now : ℚ) :
    (set_key st key code filename atype v now).cache_enabled = st.cache_enabled ∧
    (set_key st key code filename atype v now).cache_ttl = st.cache_ttl ∧
    (set_key st key code filename atype v now).max_cache_size = st.max_cache_size ∧
    (set_key st key code filename atype v now).hit_count = st.hit_count ∧
    (set_key st key code filename atype v now).miss_count = st.miss_count := by
  unfold set_key
  split
  · exact ⟨rfl, rfl, rfl, rfl, rfl⟩
  · have h := cleanup_config st now
    exact ⟨h.1, h.2.1, h.2.2.1, h.2.2.2.1, h.2.2.2.2⟩

theorem set_key_lookup_self (st : CacheState) (key code filename atype : String)
    (v : PyVal) (now : ℚ) (henab : st.cache_enabled = true) :
    (set_key st key code filename atype v now).cache.lookup key
      = Option.some
          { result := v, timestamp := now, filename := filename,
            analysis_type := atype, code_size := code.length } := by
  rw [set_key_enabled st key code filename atype v now henab]
  exact lookup_dictSet_self _ _ _

theorem get_key_hit (st : CacheState) (key : String) (entry : CacheEntry)
    (now : ℚ) (henab : st.cache_enabled = true)
    (hmem : st.cache.lookup key = Option.some entry)
    (hlive : now - entry.timestamp < (st.cache_ttl : ℚ)) :
    get_key st key now
      = (Option.some entry.result,
         { st with access_times := dictSet st.access_times key now,
                   hit_count := st.hit_count + 1 }) := by
  simp [get_key, henab, hmem, is_cache_valid, hlive]

theorem get_key_expired (st : CacheState) (key : String) (entry : CacheEntry)
    (now : ℚ) (henab : st.cache_enabled = true)
    (hmem : st.cache.lookup key = Option.some entry)
    (hexp : (st.cache_ttl : ℚ) ≤ now - entry.timestamp) :
    get_key st key now
      = (Option.none,
         { st with cache := dictDel st.cache key,
                   access_times := dictDel st.access_times key,
                   miss_count := st.miss_count + 1 }) := by
  simp [get_key, henab, hmem, is_cache_valid, not_lt.mpr hexp]

/-- C4: in an enabled store, a `get` of a present key whose age is at least
the TTL removes the entry, counts a miss and returns absent; a `get` of a
present key whose age is below the TTL updates the last-access time, counts a
hit and returns the stored value. Consequently an entry inserted at time `T`
is a hit when read at `T + ttl − ε` and a miss, with the entry removed, when
read at `T + ttl + ε` (for any `0 < ε`). -/
theorem get_ttl_expiry_semantics
    (st : CacheState) (key code filename atype : String) (entry : CacheEntry)
    (v : PyVal) (now T ε : ℚ)
    (henab : st.cache_enabled = true)
    (hmem : st.cache.lookup key = Option.some entry)
    (heps : 0 < ε) :
    ((st.cache_ttl : ℚ) ≤ now - entry.timestamp →
      (get_key st key now).1 = Option.none ∧
      (get_key st key now).2.cache.lookup key = Option.none ∧
      (get_key st key now).2.miss_count = st.miss_count + 1 ∧
      (get_key st key now).2.hit_count = st.hit_count) ∧
    (now - entry.timestamp < (st.cache_ttl : ℚ) →
      (get_key st key now).1 = Option.some entry.result ∧
      (get_key st key now).2.access_times.lookup key = Option.some now ∧
      (get_key st key now).2.hit_count = st.hit_count + 1 ∧
      (get_key st key now).2.miss_count = st.miss_count) ∧
    (get_key (set_key st key code filename atype v T) key
        (T + st.cache_ttl - ε)).1 = Option.some v ∧
    (get_key (set_key st key code filename atype v T) key
        (T + st.cache_ttl + ε)).1 = Option.none ∧
    (get_key (set_key st key code filename atype v T) key
        (T + st.cache_ttl + ε)).2.cache.lookup key = Option.none := by
  refine ⟨?_, ?_, ?_, ?_, ?_⟩
  · intro hexp
    rw [get_key_expired st key entry now henab hmem hexp]
    exact ⟨rfl, lookup_dictDel_self _ _, rfl, rfl⟩
  · intro hlive
    rw [get_key_hit st key entry now henab hmem hlive]
    exact ⟨rfl, lookup_dictSet_self _ _ _, rfl, rfl⟩
  · have hcfg := set_key_config st key code filename atype v T
    have henab2 : (set_key st key code filename atype v T).cache_enabled = true := by
      rw [hcfg.1]; exact henab
    have hmem2 := set_key_lookup_self st key code filename atype v T henab
    have hlive2 : (T + st.cache_ttl - ε) -
        (({ result := v, timestamp := T, filename := filename,
            analysis_type := atype, code_size := code.length } : CacheEntry)).timestamp
        < ((set_key st key code filename atype v T).cache_ttl : ℚ) := by
      rw [hcfg.2.1]
      dsimp only
      linarith
    rw [get_key_hit _ key _ _ henab2 hmem2 hlive2]
  · have hcfg := set_key_config st key code filename atype v T
    have henab2 : (set_key st key code filename atype v T).cache_enabled = true := by
      rw [hcfg.1]; exact henab
    have hmem2 := set_key_lookup_self st key code filename atype v T henab
    have hexp2 : ((set_key st key code filename atype v T).cache_ttl : ℚ) ≤
        (T + st.cache_ttl + ε) -
        (({ result := v, timestamp := T, filename := filename,
            analysis_type := atype, code_size := code.length } : CacheEntry)).timestamp := by
      rw [hcfg.2.1]
      dsimp only
      linarith
    rw [get_key_expired _ key _ _ henab2 hmem2 hexp2]
  · have hcfg := set_key_config st key code filename atype v T
    have henab2 : (set_key st key code filename atype v T).cache_enabled = true := by
      rw [hcfg.1]; exact henab
    have hmem2 := set_key_lookup_self st key code filename atype v T henab
    have hexp2 : ((set_key st key code filename atype v T).cache_ttl : ℚ) ≤
        (T + st.cache_ttl + ε) -
        (({ result := v, timestamp := T, filename := filename,
            analysis_type := atype, code_size := code.length } : CacheEntry)).timestamp := by
      rw [hcfg.2.1]
      dsimp only
      linarith
    rw [get_key_expired _ key _ _ henab2 hmem2 hexp2]
    exact lookup_dictDel_self _ _

/-- Concrete instantiation of `get_ttl_expiry_semantics`: a one-entry store
with `ttl = 10`, read at age 5 (hit) and age 15 (expired). -/
theorem get_ttl_expiry_semantics_witness :
    (get_key
        { cache_enabled := true, cache_ttl := 10, max_cache_size := 5,
          cache := [("k", { result := PyVal.num 1, timestamp := 0,
                            filename := "f", analysis_type := "t",
                            code_size := 3 })],
          access_times := [("k", 0)], hit_count := 0, miss_count := 0 }
        "k" 5).1 = Option.some (PyVal.num 1) ∧
    (get_key
        { cache_enabled := true, cache_ttl := 10, max_cache_size := 5,
          cache := [("k", { result := PyVal.num 1, timestamp := 0,
                            filename := "f", analysis_type := "t",
                            code_size := 3 })],
          access_times := [("k", 0)], hit_count := 0, miss_count := 0 }
        "k" 15).1 = Option.none := by
  have h := get_ttl_expiry_semantics
    { cache_enabled := true, cache_ttl := 10, max_cache_size := 5,
      cache := [("k", { result := PyVal.num 1, timestamp := 0,
                        filename := "f", analysis_type := "t",
                        code_size := 3 })],
      access_times := [("k", 0)], hit_count := 0, miss_count := 0 }
    "k" "c" "f" "t"
    { result := PyVal.num 1, timestamp := 0, filename := "f",
      analysis_type := "t", code_size := 3 }
    (PyVal.num 2) 5 0 1 rfl rfl (by norm_num)
  have h15 := get_ttl_expiry_semantics
    { cache_enabled := true, cache_ttl := 10, max_cache_size := 5,
      cache := [("k", { result := PyVal.num 1, timestamp := 0,
                        filename := "f", analysis_type := "t",
                        code_size := 3 })],
      access_times := [("k", 0)], hit_count := 0, miss_count := 0 }
    "k" "c" "f" "t"
    { result := PyVal.num 1, timestamp := 0, filename := "f",
      analysis_type := "t", code_size := 3 }
    (PyVal.num 2) 15 0 1 rfl rfl (by norm_num)
  refine ⟨(h.2.1 (by norm_num)).1, (h15.1 (by norm_num)).1⟩

theorem get_disabled (h : String → String) (s : CacheState)
    (code filename atype : String) (now : ℚ)
    (hdis : s.cache_enabled = false) :
    get h s code filename atype now = (Option.none, s) := by
  simp [get, get_key, hdis]

theorem runGets_disabled (h : String → String)
    (qs : List (String × String × String × ℚ)) (s : CacheState)
    (hdis : s.cache_enabled = false) :
    runGets h s qs = s := by
  induction qs with
  | nil => rfl
  | cons q qs ih =>
      simp only [runGets, List.foldl_cons] at ih ⊢
      rw [get_disabled h s q.1 q.2.1 q.2.2.1 q.2.2.2 hdis]
      exact ih

/-- C3, the claim as stated is false: a single `get` in disabled mode leaves
total lookups and misses at 0 — the miss counter is not incremented. -/
theorem disabled_mode_counting_counterexample :
    ¬ ((get_cache_stats (get id (initState false 3600 1000) "a" "f" "t" 0).2).total_requests = 1 ∧
       (get_cache_stats (get id (initState false 3600 1000) "a" "f" "t" 0).2).cache_misses = 1) := by
  rw [get_disabled id (initState false 3600 1000) "a" "f" "t" 0 rfl]
  intro hcl
  exact absurd hcl.1 (by decide)

/-- C3 (amended): with caching disabled, `get` returns absent and leaves the
state — including the miss counter — unchanged, `set` is a no-op, and after
any sequence of `get` calls in disabled mode the statistics report 0 total
lookups, 0 hits and 0 misses (not a 100% miss count). -/
theorem disabled_mode_semantics
    (h : String → String) (st : CacheState) (code filename atype : String)
    (v : PyVal) (now : ℚ) (ttl : ℤ) (maxSize : Nat)
    (qs : List (String × String × String × ℚ))
    (hdis : st.cache_enabled = false) :
    get h st code filename atype now = (Option.none, st) ∧
    set h st code filename atype v now = st ∧
    runGets h st qs = st ∧
    (get_cache_stats (runGets h (initState false ttl maxSize) qs)).total_requests = 0 ∧
    (get_cache_stats (runGets h (initState false ttl maxSize) qs)).cache_hits = 0 ∧
    (get_cache_stats (runGets h (initState false ttl maxSize) qs)).cache_misses = 0 := by
  have hinit := runGets_disabled h qs (initState false ttl maxSize) rfl
  refine ⟨get_disabled h st code filename atype now hdis, ?_,
          runGets_disabled h qs st hdis, ?_, ?_, ?_⟩
  · simp [set, set_key, hdis]
  · rw [hinit]; rfl
  · rw [hinit]; rfl
  · rw [hinit]; rfl

/-- Concrete instantiation of `disabled_mode_semantics` on a two-lookup
sequence against a disabled store. -/
theorem disabled_mode_semantics_witness :
    get id (initState false 3600 1000) "a" "f" "t" 0
      = (Option.none, initState false 3600 1000) ∧
    (get_cache_stats (runGets id (initState false 3600 1000)
        [("a", "f", "t", 0), ("b", "g", "u", 1)])).cache_misses = 0 := by
  have h := disabled_mode_semantics id (initState false 3600 1000) "a" "f" "t"
    (PyVal.num 1) 0 3600 1000 [("a", "f", "t", 0), ("b", "g", "u", 1)] rfl
  exact ⟨h.1, h.2.2.2.2.2⟩

theorem dictGetD_dictSet {α : Type} (acc : List (String × α))
    (t label : String) (n dflt : α) :
    dictGetD (dictSet acc t n) label dflt
      = if label = t then n else dictGetD acc label dflt := by
  by_cases h : label = t
  · subst h
    simp [dictGetD, lookup_dictSet_self]
  · simp [dictGetD, lookup_dictSet_ne _ _ _ _ h, h]

theorem entries_fold_count (l : List (String × CacheEntry))
    (acc : List (String × Nat)) (label : String) :
    dictGetD
      (l.foldl
        (fun acc p =>
          dictSet acc p.2.analysis_type (dictGetD acc p.2.analysis_type 0 + 1))
        acc)
      label 0
      = dictGetD acc label 0
        + (l.filter (fun p => p.2.analysis_type == label)).length := by
  induction l generalizing acc with
  | nil => simp
  | cons p l ih =>
      rw [List.foldl_cons, ih, dictGetD_dictSet]
      by_cases h : p.2.analysis_type = label
      · subst h
        simp [List.filter_cons]
        omega
      · have hb : (p.2.analysis_type == label) = false := by
          simpa using h
        have hne : ¬ label = p.2.analysis_type := fun he => h he.symm
        rw [if_neg hne]
        simp [List.filter_cons, hb]

/-- C7, the claim as stated is false: an entry whose age (20) exceeds the
TTL (10) is still counted by `get_cache_entries_by_type` — the reported count
for its label is 1 while the number of live entries with that label is 0. -/
theorem entries_by_type_live_counterexample :
    dictGetD (get_cache_entries_by_type expiredStoreExample) "sec" 0 = 1 ∧
    (expiredStoreExample.cache.filter
        (fun p =>
          decide ((20 : ℚ) - p.2.timestamp < (expiredStoreExample.cache_ttl : ℚ))
            && (p.2.analysis_type == "sec"))).length = 0 := by
  constructor
  · rfl
  · have hold : ¬ ((20 : ℚ) - (0 : ℚ) < ((10 : ℤ) : ℚ)) := by norm_num
    simp only [expiredStoreExample, List.filter_cons]
    norm_num

/-- C7 (amended): `get_cache_entries_by_type` maps each label to the count of
ALL stored entries bearing that label, with no liveness (TTL) filtering —
expired-but-unswept entries are included. -/
theorem entries_by_type_counts_all (st : CacheState) (label : String) :
    dictGetD (get_cache_entries_by_type st) label 0
      = (st.cache.filter (fun p => p.2.analysis_type == label)).length := by
  have h := entries_fold_count st.cache [] label
  simpa [get_cache_entries_by_type, dictGetD] using h

theorem append_sep_inj {a a' b b' : List Char} {x : Char}
    (ha : x ∉ a) (ha' : x ∉ a')
    (h : a ++ x :: b = a' ++ x :: b') : a = a' ∧ b = b' := by
  induction a generalizing a' with
  | nil =>
      cases a' with
      | nil => simpa using h
      | cons c a' =>
          simp only [List.nil_append, List.cons_append, List.cons.injEq] at h
          exact absurd (h.1 ▸ List.mem_cons_self c a') ha'
  | cons c a ih =>
      cases a' with
      | nil =>
          simp only [List.cons_append, List.nil_append, List.cons.injEq] at h
          exact absurd (h.1 ▸ List.mem_cons_self c a) ha
      | cons c' a' =>
          simp only [List.cons_append, List.cons.injEq] at h
          have hrec := ih (fun hm => ha (List.mem_cons_of_mem c hm))
            (fun hm => ha' (List.mem_cons_of_mem c' hm)) h.2
          exact ⟨by rw [h.1, hrec.1], hrec.2⟩

theorem cacheKeyPreimage_data (c f t : String) :
    (cacheKeyPreimage c f t).data
      = c.data ++ '|' :: (f.data ++ '|' :: t.data) := by
  simp [cacheKeyPreimage, String.data_append]

/-- C6, the claim as stated is false: the pre-hash encodings of the two
distinct triples `("a|b", "c", "t")` and `("a", "b|c", "t")` coincide, because
the components may themselves contain the separator character that joins
them — so the keys collide for any hash function. -/
theorem fingerprint_encoding_collision :
    cacheKeyPreimage "a|b" "c" "t" = cacheKeyPreimage "a" "b|c" "t" ∧
    (("a|b", "c", "t") : String × String × String) ≠ ("a", "b|c", "t") := by
  constructor
  · rfl
  · decide

/-- C6 (amended): `_generate_cache_key` is deterministic — equal triples give
equal keys — and its pre-hash encoding is injective on triples whose content
and identifier components do not contain the separator character. Distinct
triples that embed the separator can share an encoding (see the
counterexample), so injectivity-up-to-hash-collision holds only under this
restriction. -/
theorem fingerprint_determinism_and_injectivity
    (h : String → String) (c c' f f' t t' : String)
    (hc : '|' ∉ c.data) (hc' : '|' ∉ c'.data)
    (hf : '|' ∉ f.data) (hf' : '|' ∉ f'.data)
    (heq : cacheKeyPreimage c f t = cacheKeyPreimage c' f' t') :
    ((c, f, t) = (c', f', t') →
      generate_cache_key h c f t = generate_cache_key h c' f' t') ∧
    (c = c' ∧ f = f' ∧ t = t') := by
  constructor
  · intro hsame
    injection hsame with h1 h23
    injection h23 with h2 h3
    rw [h1, h2, h3]
  · have hdata := congrArg String.data heq
    rw [cacheKeyPreimage_data, cacheKeyPreimage_data] at hdata
    have h1 := append_sep_inj hc hc' hdata
    have h2 := append_sep_inj hf hf' h1.2
    exact ⟨String.ext h1.1, String.ext h2.1, String.ext h2.2⟩

/-- Concrete instantiation of `fingerprint_determinism_and_injectivity` at
separator-free components. -/
theorem fingerprint_determinism_and_injectivity_witness :
    ("code", "file", "sec") = (("code", "file", "sec") : String × String × String) ∧
    generate_cache_key id "code" "file" "sec"
      = generate_cache_key id "code" "file" "sec" := by
  have h := fingerprint_determinism_and_injectivity id "code" "code" "file"
    "file" "sec" "sec" (by decide) (by decide) (by decide) (by decide) rfl
  exact ⟨rfl, h.1 rfl⟩

end CacheManager

namespace PerformanceMonitor

theorem insertSorted_length (x : ℚ) (l : List ℚ) :
    (insertSorted x l).length = l.length + 1 := by
  induction l with
  | nil => rfl
  | cons y ys ih =>
      unfold insertSorted
      split
      · simp
      · simp [ih]

theorem sortAsc_length (l : List ℚ) : (sortAsc l).length = l.length := by
  suffices h : ∀ acc : List ℚ,
      (l.foldl (fun acc x => insertSorted x acc) acc).length
        = acc.length + l.length by
    simpa using h []
  induction l with
  | nil => intro acc; simp
  | cons x xs ih =>
      intro acc
      simp only [List.foldl_cons]
      rw [ih (insertSorted x acc), insertSorted_length]
      simp only [List.length_cons]
      omega

/-- C9: on a nonempty window `_percentile` returns exactly what the spec
formula prescribes — the element of the ascending sort at index
`floor(n * p / 100)` clamped to `[0, n − 1]` — and on the window
`[1, …, 10]` both p95 and p99 come out as 10 (index 9). -/
theorem percentile_matches_spec (data : List ℚ) (p : Nat) (hne : data ≠ []) :
    percentile data p = percentileSpec data p ∧
    percentile [1, 2, 3, 4, 5, 6, 7, 8, 9, 10] 95 = 10 ∧
    percentile [1, 2, 3, 4, 5, 6, 7, 8, 9, 10] 99 = 10 := by
  refine ⟨?_, by decide, by decide⟩
  obtain ⟨x, xs, rfl⟩ := List.exists_cons_of_ne_nil hne
  simp only [percentile, percentileSpec, List.isEmpty_cons, Bool.false_eq_true,
    if_false]
  rw [sortAsc_length]

/-- Concrete instantiation of `percentile_matches_spec` on the window
`[3, 1, 2]`. -/
theorem percentile_matches_spec_witness :
    percentile [3, 1, 2] 95 = percentileSpec [3, 1, 2] 95 ∧
    percentile [1, 2, 3, 4, 5, 6, 7, 8, 9, 10] 95 = 10 :=
  ⟨(percentile_matches_spec [3, 1, 2] 95 (by decide)).1,
   (percentile_matches_spec [3, 1, 2] 95 (by decide)).2.1⟩

end PerformanceMonitor

namespace CacheManager

theorem get_key_absent (st : CacheState) (key : String) (now : ℚ)
    (henab : st.cache_enabled = true)
    (habs : st.cache.lookup key = Option.none) :
    get_key st key now
      = (Option.none, { st with miss_count := st.miss_count + 1 }) := by
  simp [get_key, henab, habs]

theorem cached_analysis_miss_ok
    (h : String → String) (atype code filename : String) (v : PyVal)
    (e t : ℚ) (st : CacheState)
    (henab : st.cache_enabled = true)
    (hmiss : st.cache.lookup (generate_cache_key h code filename atype)
      = Option.none) :
    cached_analysis h atype code filename (Except.ok v) e t st
      = { result := Except.ok (annotateResult atype e v),
          state := set h { st with miss_count := st.miss_count + 1 }
            code filename atype (annotateResult atype e v) t,
          invoked := true } := by
  unfold cached_analysis get
  rw [get_key_absent st _ t henab hmiss]
  rfl

theorem cached_analysis_hit
    (h : String → String) (atype code filename : String) (entry : CacheEntry)
    (compute : Except String PyVal) (e t : ℚ) (st : CacheState)
    (henab : st.cache_enabled = true)
    (hmem : st.cache.lookup (generate_cache_key h code filename atype)
      = Option.some entry)
    (hlive : t - entry.timestamp < (st.cache_ttl : ℚ))
    (hres : isNotNone entry.result = true) :
    cached_analysis h atype code filename compute e t st
      = { result := Except.ok entry.result,
          state := { st with
            access_times := dictSet st.access_times
              (generate_cache_key h code filename atype) t,
            hit_count := st.hit_count + 1 },
          invoked := false } := by
  unfold cached_analysis get
  rw [get_key_hit st _ entry t henab hmem hlive]
  show (let cached_result := pyValOfOption (Option.some entry.result)
    if isNotNone cached_result then _ else _) = _
  rw [show pyValOfOption (Option.some entry.result) = entry.result from rfl]
  rw [if_pos hres]

theorem getField_annotate_cached (atype : String) (e : ℚ) (v : PyVal)
    (hann : isAnnotatable v = true) :
    getField (annotateResult atype e v) "cached"
      = Option.some (PyVal.bool false) := by
  cases v with
  | list xs =>
      show List.lookup "cached" _ = _
      rw [lookup_cons_pair, if_neg (by decide), lookup_cons_pair,
        if_neg (by decide), lookup_cons_pair, if_pos rfl]
  | dict fs =>
      show List.lookup "cached" _ = _
      rw [lookup_dictSet_ne _ _ _ _ (by decide : "cached" ≠ "analysis_type"),
        lookup_dictSet_self]
  | str s => simp [isAnnotatable] at hann
  | num q => simp [isAnnotatable] at hann
  | bool b => simp [isAnnotatable] at hann
  | none => simp [isAnnotatable] at hann

theorem getField_annotate_analysis_type (atype : String) (e : ℚ) (v : PyVal)
    (hann : isAnnotatable v = true) :
    getField (annotateResult atype e v) "analysis_type"
      = Option.some (PyVal.str atype) := by
  cases v with
  | list xs =>
      show List.lookup "analysis_type" _ = _
      rw [lookup_cons_pair, if_neg (by decide), lookup_cons_pair,
        if_neg (by decide), lookup_cons_pair, if_neg (by decide),
        lookup_cons_pair, if_pos rfl]
  | dict fs =>
      show List.lookup "analysis_type" _ = _
      rw [lookup_dictSet_self]
  | str s => simp [isAnnotatable] at hann
  | num q => simp [isAnnotatable] at hann
  | bool b => simp [isAnnotatable] at hann
  | none => simp [isAnnotatable] at hann

theorem getField_annotate_time (atype : String) (e : ℚ) (v : PyVal)
    (hann : isAnnotatable v = true) :
    getField (annotateResult atype e v) "execution_time_ms"
      = Option.some (PyVal.num (round2 (e * 1000))) := by
  cases v with
  | list xs =>
      show List.lookup "execution_time_ms" _ = _
      rw [lookup_cons_pair, if_neg (by decide), lookup_cons_pair, if_pos rfl]
  | dict fs =>
      show List.lookup "execution_time_ms" _ = _
      rw [lookup_dictSet_ne _ _ _ _
          (by decide : "execution_time_ms" ≠ "analysis_type"),
        lookup_dictSet_ne _ _ _ _ (by decide : "execution_time_ms" ≠ "cached"),
        lookup_dictSet_self]
  | str s => simp [isAnnotatable] at hann
  | num q => simp [isAnnotatable] at hann
  | bool b => simp [isAnnotatable] at hann
  | none => simp [isAnnotatable] at hann

theorem isNotNone_annotateResult (atype : String) (e : ℚ) (v : PyVal)
    (hnn : isNotNone v = true) :
    isNotNone (annotateResult atype e v) = true := by
  cases v with
  | list xs => rfl
  | dict fs => rfl
  | str s => rfl
  | num q => rfl
  | bool b => rfl
  | none => simp [isNotNone] at hnn

theorem cached_analysis_twice_aux
    (h : String → String) (atype code filename : String) (v : PyVal)
    (e1 e2 t1 t2 : ℚ) (st : CacheState)
    (henab : st.cache_enabled = true)
    (hmiss : st.cache.lookup (generate_cache_key h code filename atype)
      = Option.none)
    (hfresh : t2 - t1 < (st.cache_ttl : ℚ))
    (hnn : isNotNone v = true) :
    (cached_analysis h atype code filename (Except.ok v) e1 t1 st).invoked
      = true ∧
    (cached_analysis h atype code filename (Except.ok v) e2 t2
      (cached_analysis h atype code filename (Except.ok v) e1 t1 st).state).invoked
      = false ∧
    (cached_analysis h atype code filename (Except.ok v) e2 t2
      (cached_analysis h atype code filename (Except.ok v) e1 t1 st).state).result
      = (cached_analysis h atype code filename (Except.ok v) e1 t1 st).result ∧
    (cached_analysis h atype code filename (Except.ok v) e1 t1 st).result
      = Except.ok (annotateResult atype e1 v) ∧
    (isAnnotatable v = true →
      getField (annotateResult atype e1 v) "cached"
        = Option.some (PyVal.bool false)) := by
  have hrun1 := cached_analysis_miss_ok h atype code filename v e1 t1 st henab hmiss
  have henabm : ({ st with miss_count := st.miss_count + 1 } : CacheState).cache_enabled = true := henab
  have hcfg := set_key_config { st with miss_count := st.miss_count + 1 }
    (generate_cache_key h code filename atype) code filename atype
    (annotateResult atype e1 v) t1
  have hmem1 : (set h { st with miss_count := st.miss_count + 1 }
        code filename atype (annotateResult atype e1 v) t1).cache.lookup
        (generate_cache_key h code filename atype)
      = Option.some
          { result := annotateResult atype e1 v, timestamp := t1,
            filename := filename, analysis_type := atype,
            code_size := code.length } :=
    set_key_lookup_self { st with miss_count := st.miss_count + 1 }
      (generate_cache_key h code filename atype) code filename atype
      (annotateResult atype e1 v) t1 henabm
  have henab1 : (set h { st with miss_count := st.miss_count + 1 }
        code filename atype (annotateResult atype e1 v) t1).cache_enabled
      = true := hcfg.1.trans henabm
  have hlive1 : t2 -
      ({ result := annotateResult atype e1 v, timestamp := t1,
         filename := filename, analysis_type := atype,
         code_size := code.length } : CacheEntry).timestamp
      < ((set h { st with miss_count := st.miss_count + 1 }
            code filename atype (annotateResult atype e1 v) t1).cache_ttl : ℚ) := by
    show t2 - t1 < _
    rw [show (set h { st with miss_count := st.miss_count + 1 }
          code filename atype (annotateResult atype e1 v) t1).cache_ttl
        = st.cache_ttl from hcfg.2.1]
    exact hfresh
  have hrun2 := cached_analysis_hit h atype code filename
    { result := annotateResult atype e1 v, timestamp := t1,
      filename := filename, analysis_type := atype,
      code_size := code.length }
    (Except.ok v) e2 t2 _ henab1 hmem1 hlive1
    (isNotNone_annotateResult atype e1 v hnn)
  rw [hrun1]
  dsimp only
  rw [hrun2]
  exact ⟨rfl, rfl, rfl, rfl, getField_annotate_cached atype e1 v⟩

/-- C2 (amended): with caching enabled, two `cached_analysis` calls with
identical inputs, no intervening clear or expiry, and a computed value that
is not Python `None` invoke the wrapped compute function exactly once (first
call yes, second call no) and the second call returns the stored annotated
value verbatim — whose `cached` flag is `false`, set once at computation time
and never flipped to `true` on a hit. (A computed `None` is excluded: the
wrapper's `is not None` guard cannot distinguish a stored `None` from a miss,
so that value would be recomputed.) -/
theorem memoize_idempotent_cached_flag
    (h : String → String) (atype code filename : String) (v : PyVal)
    (e1 e2 t1 t2 : ℚ) (st : CacheState)
    (henab : st.cache_enabled = true)
    (hmiss : st.cache.lookup (generate_cache_key h code filename atype)
      = Option.none)
    (hfresh : t2 - t1 < (st.cache_ttl : ℚ))
    (hnn : isNotNone v = true) :
    (cached_analysis h atype code filename (Except.ok v) e1 t1 st).invoked
      = true ∧
    (cached_analysis h atype code filename (Except.ok v) e2 t2
      (cached_analysis h atype code filename (Except.ok v) e1 t1 st).state).invoked
      = false ∧
    (cached_analysis h atype code filename (Except.ok v) e2 t2
      (cached_analysis h atype code filename (Except.ok v) e1 t1 st).state).result
      = (cached_analysis h atype code filename (Except.ok v) e1 t1 st).result ∧
    (cached_analysis h atype code filename (Except.ok v) e1 t1 st).result
      = Except.ok (annotateResult atype e1 v) ∧
    (isAnnotatable v = true →
      getField (annotateResult atype e1 v) "cached"
        = Option.some (PyVal.bool false)) :=
  cached_analysis_twice_aux h atype code filename v e1 e2 t1 t2 st henab
    hmiss hfresh hnn

/-- C2, as stated, is false: a first memoized call stores a dict annotated
with `cached = false`; the second identical call (a cache hit, compute not
invoked) returns that stored dict verbatim, so its `cached` flag is still
`false`, not `true` — the code never sets the flag to `true`. -/
theorem memoize_cached_flag_counterexample :
    (cached_analysis id "t" "code" "f"
        (Except.ok (PyVal.dict [("score", PyVal.num 5)])) 1 5
        (cached_analysis id "t" "code" "f"
          (Except.ok (PyVal.dict [("score", PyVal.num 5)])) 1 0
          (initState true 3600 1000)).state).invoked = false ∧
    ¬ ((cached_analysis id "t" "code" "f"
          (Except.ok (PyVal.dict [("score", PyVal.num 5)])) 1 5
          (cached_analysis id "t" "code" "f"
            (Except.ok (PyVal.dict [("score", PyVal.num 5)])) 1 0
            (initState true 3600 1000)).state).result.toOption.bind
        (fun w => getField w "cached") = Option.some (PyVal.bool true)) := by
  have hf : (5 : ℚ) - 0 < (((initState true 3600 1000).cache_ttl : ℤ) : ℚ) := by
    have hc : (((initState true 3600 1000).cache_ttl : ℤ) : ℚ)
        = ((3600 : ℤ) : ℚ) := rfl
    rw [hc]
    norm_num
  have hgen := cached_analysis_twice_aux id "t" "code" "f"
    (PyVal.dict [("score", PyVal.num 5)]) 1 1 0 5 (initState true 3600 1000)
    rfl rfl hf rfl
  refine ⟨hgen.2.1, ?_⟩
  intro hcl
  rw [hgen.2.2.1, hgen.2.2.2.1] at hcl
  have hval : (Except.ok
        (annotateResult "t" 1 (PyVal.dict [("score", PyVal.num 5)]))
        : Except String PyVal).toOption.bind (fun w => getField w "cached")
      = Option.some (PyVal.bool false) := by
    show getField (annotateResult "t" 1 (PyVal.dict [("score", PyVal.num 5)]))
      "cached" = Option.some (PyVal.bool false)
    exact getField_annotate_cached "t" 1 _ rfl
  rw [hval] at hcl
  injection hcl with h1
  injection h1 with h2
  exact absurd h2 (by decide)

/-- Concrete instantiation of `memoize_idempotent_cached_flag`: two identical
calls on an empty enabled store; compute runs once, the hit returns the
stored value whose `cached` flag is `false`. -/
theorem memoize_idempotent_cached_flag_witness :
    (cached_analysis id "t" "code" "f"
        (Except.ok (PyVal.list [PyVal.str "i"])) 1 0
        (initState true 3600 1000)).invoked = true ∧
    (cached_analysis id "t" "code" "f"
        (Except.ok (PyVal.list [PyVal.str "i"])) 1 5
        (cached_analysis id "t" "code" "f"
          (Except.ok (PyVal.list [PyVal.str "i"])) 1 0
          (initState true 3600 1000)).state).invoked = false ∧
    getField (annotateResult "t" 1 (PyVal.list [PyVal.str "i"])) "cached"
      = Option.some (PyVal.bool false) := by
  have hf : (5 : ℚ) - 0 < (((initState true 3600 1000).cache_ttl : ℤ) : ℚ) := by
    have hc : (((initState true 3600 1000).cache_ttl : ℤ) : ℚ)
        = ((3600 : ℤ) : ℚ) := rfl
    rw [hc]
    norm_num
  have h := memoize_idempotent_cached_flag id "t" "code" "f"
    (PyVal.list [PyVal.str "i"]) 1 1 0 5 (initState true 3600 1000)
    rfl rfl hf rfl
  exact ⟨h.1, h.2.1, h.2.2.2.2 rfl⟩

/-- C5, as stated, is false: a compute function returning the bare scalar 7
flows through the wrapper on a miss without any structured wrapper — the
returned (and cached) value is the scalar itself, with no `cached` flag, no
operation-kind label and no timing field on it. -/
theorem memoize_scalar_unwrapped_counterexample :
    (cached_analysis id "t" "code" "f" (Except.ok (PyVal.num 7)) 1 0
        (initState true 3600 1000)).result = Except.ok (PyVal.num 7) ∧
    getField (PyVal.num 7) "cached" = Option.none ∧
    getField (PyVal.num 7) "execution_time_ms" = Option.none := by
  exact ⟨rfl, rfl, rfl⟩

/-- C5 (amended): on a miss the wrapper returns `compute`'s value after the
annotation step: a list is wrapped into a structured insights dict carrying
the uniform metadata (`cached`, `analysis_type`, `execution_time_ms`), a dict
is copied and annotated in place with the same three fields, but a bare
scalar is returned — and cached — completely unannotated: no structured
wrapper is produced for it. -/
theorem memoize_wrapper_shape
    (h : String → String) (atype code filename : String) (v : PyVal)
    (e t q : ℚ) (st : CacheState)
    (henab : st.cache_enabled = true)
    (hmiss : st.cache.lookup (generate_cache_key h code filename atype)
      = Option.none) :
    (cached_analysis h atype code filename (Except.ok v) e t st).result
      = Except.ok (annotateResult atype e v) ∧
    (∀ xs, v = PyVal.list xs →
      annotateResult atype e v
        = PyVal.dict
            [("insights", PyVal.list xs),
             ("execution_time_ms", PyVal.num (round2 (e * 1000))),
             ("cached", PyVal.bool false),
             ("analysis_type", PyVal.str atype)]) ∧
    (isAnnotatable v = true →
      getField (annotateResult atype e v) "cached"
        = Option.some (PyVal.bool false) ∧
      getField (annotateResult atype e v) "analysis_type"
        = Option.some (PyVal.str atype) ∧
      getField (annotateResult atype e v) "execution_time_ms"
        = Option.some (PyVal.num (round2 (e * 1000)))) ∧
    (isAnnotatable v = false → annotateResult atype e v = v) ∧
    annotateResult atype e (PyVal.num q) = PyVal.num q := by
  refine ⟨?_, ?_, ?_, ?_, rfl⟩
  · rw [cached_analysis_miss_ok h atype code filename v e t st henab hmiss]
  · intro xs hv
    subst hv
    rfl
  · intro hann
    exact ⟨getField_annotate_cached atype e v hann,
           getField_annotate_analysis_type atype e v hann,
           getField_annotate_time atype e v hann⟩
  · intro hnot
    cases v with
    | list xs => simp [isAnnotatable] at hnot
    | dict fs => simp [isAnnotatable] at hnot
    | str s => rfl
    | num q => rfl
    | bool b => rfl
    | none => rfl

/-- Concrete instantiation of `memoize_wrapper_shape` at a scalar compute
result on an empty enabled store. -/
theorem memoize_wrapper_shape_witness :
    (cached_analysis id "t" "code" "f" (Except.ok (PyVal.num 3)) 1 0
        (initState true 3600 1000)).result
      = Except.ok (annotateResult "t" 1 (PyVal.num 3)) ∧
    annotateResult "t" 1 (PyVal.num 3) = PyVal.num 3 := by
  have h := memoize_wrapper_shape id "t" "code" "f" (PyVal.num 3) 1 0 3
    (initState true 3600 1000) rfl rfl
  exact ⟨h.1, h.2.2.2.1 rfl⟩

theorem get_key_miss_state (st : CacheState) (key : String) (now : ℚ)
    (henab : st.cache_enabled = true)
    (hmiss : (get_key st key now).1 = Option.none) :
    (get_key st key now).2.cache.lookup key = Option.none ∧
    ∀ k, k ≠ key → (get_key st key now).2.cache.lookup k = st.cache.lookup k := by
  cases hl : st.cache.lookup key with
  | none =>
      rw [get_key_absent st key now henab hl]
      exact ⟨hl, fun k _ => rfl⟩
  | some entry =>
      by_cases hv : now - entry.timestamp < (st.cache_ttl : ℚ)
      · rw [get_key_hit st key entry now henab hl hv] at hmiss
        simp at hmiss
      · have hexp := not_lt.mp hv
        rw [get_key_expired st key entry now henab hl hexp]
        exact ⟨lookup_dictDel_self _ _,
               fun k hk => lookup_dictDel_ne _ _ _ hk⟩

/-- C8: when the wrapped compute function raises on a cache miss, the
exception propagates to the caller unchanged and nothing is stored — the
computed key maps to no entry afterwards and every other key's entry is
exactly as before the call (only the missed key's expired entry may have been
swept by the lookup itself). -/
theorem memoize_error_propagation
    (h : String → String) (atype code filename e : String)
    (elapsed now : ℚ) (st : CacheState)
    (henab : st.cache_enabled = true)
    (hmiss : (get h st code filename atype now).1 = Option.none) :
    (cached_analysis h atype code filename (Except.error e) elapsed now st).result
      = Except.error e ∧
    (cached_analysis h atype code filename (Except.error e) elapsed now
        st).state.cache.lookup (generate_cache_key h code filename atype)
      = Option.none ∧
    ∀ k, k ≠ generate_cache_key h code filename atype →
      (cached_analysis h atype code filename (Except.error e) elapsed now
          st).state.cache.lookup k = st.cache.lookup k := by
  have hrun : cached_analysis h atype code filename (Except.error e) elapsed now st
      = { result := Except.error e,
          state := (get h st code filename atype now).2,
          invoked := true } := by
    unfold cached_analysis
    rw [show get h st code filename atype now
        = (Option.none, (get h st code filename atype now).2) from by
      rw [← hmiss]]
    rfl
  have hstate := get_key_miss_state st (generate_cache_key h code filename atype)
    now henab hmiss
  rw [hrun]
  exact ⟨rfl, hstate.1, hstate.2⟩

/-- Concrete instantiation of `memoize_error_propagation`: a raising compute
on an empty enabled store propagates its error and stores nothing. -/
theorem memoize_error_propagation_witness :
    (cached_analysis id "boom" "c" "f" (Except.error "crash") 1 0
        (initState true 3600 10)).result = Except.error "crash" ∧
    (cached_analysis id "boom" "c" "f" (Except.error "crash") 1 0
        (initState true 3600 10)).state.cache.lookup
        (generate_cache_key id "c" "f" "boom") = Option.none ∧
    (cached_analysis id "boom" "c" "f" (Except.error "crash") 1 0
        (initState true 3600 10)).state.cache.lookup "other"
      = (initState true 3600 10).cache.lookup "other" := by
  have h := memoize_error_propagation id "boom" "c" "f" "crash" 1 0
    (initState true 3600 10) rfl rfl
  exact ⟨h.1, h.2.1, h.2.2 "other" (by decide)⟩

end CacheManager

namespace PerformanceMonitor

theorem runOps_no_response (ops : List PerfOp) (st : PerfState)
    (hno : ∀ d, PerfOp.response d ∉ ops) :
    (runOps st ops).response_times = st.response_times ∧
    (runOps st ops).request_count = st.request_count ∧
    (runOps st ops).error_count
      = st.error_count + (ops.filter isErrOp).length ∧
    (runOps st ops).start_time = st.start_time := by
  induction ops generalizing st with
  | nil => simp [runOps]
  | cons op ops ih =>
      have hno' : ∀ d, PerfOp.response d ∉ ops := fun d hd =>
        hno d (List.mem_cons_of_mem _ hd)
      cases op with
      | response d => exact absurd (List.mem_cons_self _ _) (hno d)
      | analysis t d =>
          have hstep := ih (record_analysis_time st t d) hno'
          simpa [runOps, applyOp, record_analysis_time, List.filter_cons,
            isErrOp] using hstep
      | err =>
          have hstep := ih (record_error st) hno'
          simp only [runOps, List.foldl_cons, applyOp] at hstep ⊢
          refine ⟨hstep.1, hstep.2.1, ?_, hstep.2.2.2⟩
          rw [hstep.2.2.1]
          simp [record_error, List.filter_cons, isErrOp]
          omega

theorem breakdown_lookup_isSome
    (l : List (String × List ℚ)) (acc : List (String × (ℚ × Nat)))
    (t : String)
    (hs : ((l.foldl
        (fun acc p =>
          if p.2.isEmpty then acc
          else CacheManager.dictSet acc p.1
            (CacheManager.round2 (listMean p.2 * 1000), p.2.length))
        acc).lookup t).isSome = true) :
    (acc.lookup t).isSome = true ∨ ∃ w, (t, w) ∈ l ∧ w ≠ [] := by
  induction l generalizing acc with
  | nil => exact Or.inl hs
  | cons p l ih =>
      rw [List.foldl_cons] at hs
      by_cases hemp : p.2.isEmpty = true
      · rw [if_pos hemp] at hs
        rcases ih acc hs with h | ⟨w, hw, hwne⟩
        · exact Or.inl h
        · exact Or.inr ⟨w, List.mem_cons_of_mem _ hw, hwne⟩
      · rw [if_neg hemp] at hs
        rcases ih _ hs with h | ⟨w, hw, hwne⟩
        · by_cases ht : t = p.1
          · subst ht
            refine Or.inr ⟨p.2, ?_, ?_⟩
            · exact (Prod.mk.eta (p := p)) ▸ List.mem_cons_self p l
            · intro he
              exact hemp (by rw [he]; rfl)
          · rw [CacheManager.lookup_dictSet_ne _ _ _ _ ht] at h
            exact Or.inl h
        · exact Or.inr ⟨w, List.mem_cons_of_mem _ hw, hwne⟩

theorem round2_zero : CacheManager.round2 0 = 0 := by
  norm_num [CacheManager.round2]

/-- C10: when no `record_response_time` call has occurred, the statistics
snapshot reports the response-time aggregates as the empty placeholder (no
aggregate fields at all) while still reporting uptime, 0 total requests, the
error count, a 0 error rate and 0 throughput; and an operation kind appears
in the per-operation breakdown only if its window is nonempty. -/
theorem stats_empty_window_shape
    (maxSamples : Nat) (start now : ℚ) (ops : List PerfOp)
    (hnoresp : ∀ d, PerfOp.response d ∉ ops) :
    (get_performance_stats (runOps (initPerf maxSamples start) ops)
        now).response_times = Option.none ∧
    (get_performance_stats (runOps (initPerf maxSamples start) ops)
        now).total_requests = 0 ∧
    (get_performance_stats (runOps (initPerf maxSamples start) ops)
        now).error_count = (ops.filter isErrOp).length ∧
    (get_performance_stats (runOps (initPerf maxSamples start) ops)
        now).error_rate_percent = 0 ∧
    (get_performance_stats (runOps (initPerf maxSamples start) ops)
        now).uptime_hours = CacheManager.round2 ((now - start) / 3600) ∧
    (get_performance_stats (runOps (initPerf maxSamples start) ops)
        now).requests_per_hour = 0 ∧
    ∀ t, (((get_performance_stats (runOps (initPerf maxSamples start) ops)
        now).analysis_breakdown.lookup t).isSome = true →
      ∃ w, (t, w) ∈ (runOps (initPerf maxSamples start) ops).analysis_times ∧
        w ≠ []) := by
  obtain ⟨hrt, hrc, herr, hstart⟩ :=
    runOps_no_response ops (initPerf maxSamples start) hnoresp
  have hrt0 : (runOps (initPerf maxSamples start) ops).response_times = [] :=
    hrt.trans rfl
  have hrc0 : (runOps (initPerf maxSamples start) ops).request_count = 0 :=
    hrc.trans rfl
  have herr0 : (runOps (initPerf maxSamples start) ops).error_count
      = (ops.filter isErrOp).length := by
    rw [herr]
    exact Nat.zero_add _
  have hstart0 : (runOps (initPerf maxSamples start) ops).start_time = start :=
    hstart.trans rfl
  refine ⟨?_, ?_, ?_, ?_, ?_, ?_, ?_⟩
  · simp [get_performance_stats, hrt0]
  · simp [get_performance_stats, hrc0]
  · simp [get_performance_stats, herr0]
  · simp [get_performance_stats, hrc0, round2_zero]
  · simp [get_performance_stats, hstart0]
  · simp [get_performance_stats, hrc0, round2_zero]
  · intro t hs
    simp only [get_performance_stats] at hs
    rcases breakdown_lookup_isSome
        (runOps (initPerf maxSamples start) ops).analysis_times [] t hs with
      h | h
    · simp at h
    · exact h

/-- Concrete instantiation of `stats_empty_window_shape`: one analysis sample
and one error, no response-time sample. -/
theorem stats_empty_window_shape_witness :
    (get_performance_stats
        (runOps (initPerf 1000 0) [PerfOp.analysis "q" 2, PerfOp.err])
        3600).response_times = Option.none ∧
    (get_performance_stats
        (runOps (initPerf 1000 0) [PerfOp.analysis "q" 2, PerfOp.err])
        3600).total_requests = 0 ∧
    (get_performance_stats
        (runOps (initPerf 1000 0) [PerfOp.analysis "q" 2, PerfOp.err])
        3600).error_count = 1 ∧
    (get_performance_stats
        (runOps (initPerf 1000 0) [PerfOp.analysis "q" 2, PerfOp.err])
        3600).error_rate_percent = 0 := by
  have h := stats_empty_window_shape 1000 0 3600
    [PerfOp.analysis "q" 2, PerfOp.err]
    (by intro d hd; simp at hd)
  exact ⟨h.1, h.2.1, h.2.2.1, h.2.2.2.1⟩

end PerformanceMonitor

namespace CacheManager

theorem lookup_none_of_fresh {α : Type} (d : List (String × α)) (k : String)
    (hfresh : ∀ p ∈ d, p.1 ≠ k) : d.lookup k = Option.none := by
  induction d with
  | nil => rfl
  | cons p d ih =>
      obtain ⟨a, b⟩ := p
      have hka : k ≠ a := fun he =>
        hfresh (a, b) (List.mem_cons_self _ _) he.symm
      rw [lookup_cons_pair, if_neg hka]
      exact ih (fun q hq => hfresh q (List.mem_cons_of_mem _ hq))

theorem dictSet_append_of_fresh {α : Type} (d : List (String × α))
    (k : String) (v : α) (hnone : d.lookup k = Option.none) :
    dictSet d k v = d ++ [(k, v)] := by
  simp [dictSet, hnone]

theorem dictSet_length_le {α : Type} (d : List (String × α)) (k : String)
    (v : α) : (dictSet d k v).length ≤ d.length + 1 := by
  unfold dictSet
  split
  · simp
  · simp

theorem map_fst_filter_key {α : Type} (d : List (String × α))
    (pred : String → Bool) :
    (d.filter (fun p => pred p.1)).map Prod.fst
      = (d.map Prod.fst).filter pred := by
  induction d with
  | nil => rfl
  | cons p d ih =>
      by_cases hp : pred p.1
      · simp [List.filter_cons, hp, ih]
      · simp only [Bool.not_eq_true] at hp
        simp [List.filter_cons, hp, ih]

theorem dictDel_map_fst {α : Type} (d : List (String × α)) (k : String) :
    (dictDel d k).map Prod.fst = (d.map Prod.fst).filter (fun a => a ≠ k) := by
  unfold dictDel
  exact map_fst_filter_key d (fun a => a ≠ k)

theorem dictDel_of_fresh {α : Type} (d : List (String × α)) (k : String)
    (hrest : ∀ q ∈ d, q.1 ≠ k) : dictDel d k = d :=
  List.filter_eq_self.mpr (fun q hq => by simpa using hrest q hq)

theorem dictDel_length_of_mem {α : Type} (d : List (String × α)) (k : String)
    (hnodup : (d.map Prod.fst).Nodup) (hmem : k ∈ d.map Prod.fst) :
    (dictDel d k).length = d.length - 1 := by
  induction d with
  | nil => simp at hmem
  | cons p d ih =>
      obtain ⟨a, b⟩ := p
      simp only [List.map_cons, List.nodup_cons] at hnodup
      by_cases hak : a = k
      · subst hak
        have hrest : ∀ q ∈ d, q.1 ≠ a := by
          intro q hq he
          exact hnodup.1 (he ▸ List.mem_map_of_mem Prod.fst hq)
        unfold dictDel
        rw [List.filter_cons_of_neg (by simp)]
        rw [show List.filter (fun p => decide (p.1 ≠ a)) d = dictDel d a from rfl]
        rw [dictDel_of_fresh d a hrest]
        simp
      · have hk : k ∈ d.map Prod.fst := by
          rcases List.mem_cons.mp hmem with h | h
          · exact absurd h.symm hak
          · exact h
        have hpos : 0 < d.length := by
          rcases d with _ | ⟨q, d'⟩
          · simp at hk
          · simp
        unfold dictDel
        rw [List.filter_cons_of_pos (by simpa using hak)]
        rw [show List.filter (fun p => decide (p.1 ≠ k)) d = dictDel d k from rfl]
        simp only [List.length_cons]
        rw [ih hnodup.2 hk]
        omega

theorem mem_map_fst_dictDel {α : Type} (d : List (String × α)) (k k' : String)
    (hmem : k' ∈ d.map Prod.fst) (hne : k' ≠ k) :
    k' ∈ (dictDel d k).map Prod.fst := by
  rw [dictDel_map_fst]
  exact List.mem_filter.mpr ⟨hmem, by simpa using hne⟩

theorem dictDel_map_fst_nodup {α : Type} (d : List (String × α)) (k : String)
    (hnodup : (d.map Prod.fst).Nodup) :
    ((dictDel d k).map Prod.fst).Nodup := by
  rw [dictDel_map_fst]
  exact hnodup.filter _

theorem foldl_dictDel_length {α : Type} (ks : List String)
    (d : List (String × α))
    (hnodupd : (d.map Prod.fst).Nodup) (hnodupk : ks.Nodup)
    (hsub : ∀ k ∈ ks, k ∈ d.map Prod.fst) :
    (ks.foldl (fun c k => dictDel c k) d).length = d.length - ks.length := by
  induction ks generalizing d with
  | nil => simp
  | cons k0 ks ih =>
      simp only [List.foldl_cons]
      have hmem0 := hsub k0 (List.mem_cons_self _ _)
      have h1 := dictDel_length_of_mem d k0 hnodupd hmem0
      have hnodup1 := dictDel_map_fst_nodup d k0 hnodupd
      have hk0 : k0 ∉ ks := (List.nodup_cons.mp hnodupk).1
      have hsub1 : ∀ k ∈ ks, k ∈ (dictDel d k0).map Prod.fst := fun k hk =>
        mem_map_fst_dictDel d k0 k (hsub k (List.mem_cons_of_mem _ hk))
          (fun he => hk0 (he ▸ hk))
      rw [ih (dictDel d k0) hnodup1 (List.nodup_cons.mp hnodupk).2 hsub1, h1]
      simp only [List.length_cons]
      omega

theorem deleteKeys_cons (st : CacheState) (k : String) (ks : List String) :
    deleteKeys st (k :: ks)
      = deleteKeys { st with cache := dictDel st.cache k,
                             access_times := dictDel st.access_times k } ks := rfl

theorem deleteKeys_cache (st : CacheState) (ks : List String) :
    (deleteKeys st ks).cache = ks.foldl (fun c k => dictDel c k) st.cache ∧
    (deleteKeys st ks).access_times
      = ks.foldl (fun c k => dictDel c k) st.access_times := by
  induction ks generalizing st with
  | nil => exact ⟨rfl, rfl⟩
  | cons k ks ih =>
      rw [deleteKeys_cons]
      simp only [List.foldl_cons]
      exact ih _

theorem deleteKeys_wf (st : CacheState) (ks : List String)
    (hwf : CacheWf st) : CacheWf (deleteKeys st ks) := by
  induction ks generalizing st with
  | nil => exact hwf
  | cons k ks ih =>
      rw [deleteKeys_cons]
      apply ih
      constructor
      · show (dictDel st.cache k).map Prod.fst
          = (dictDel st.access_times k).map Prod.fst
        rw [dictDel_map_fst, dictDel_map_fst, hwf.1]
      · exact dictDel_map_fst_nodup st.cache k hwf.2

theorem insertByTime_append (q : String × ℚ) (l : List (String × ℚ))
    (hle : ∀ p ∈ l, p.2 ≤ q.2) : insertByTime q l = l ++ [q] := by
  induction l with
  | nil => rfl
  | cons r l ih =>
      have hr : r.2 ≤ q.2 := hle r (List.mem_cons_self _ _)
      show (if q.2 < r.2 then q :: r :: l else r :: insertByTime q l) = _
      rw [if_neg (not_lt.mpr hr)]
      rw [ih (fun p hp => hle p (List.mem_cons_of_mem _ hp))]
      rfl

theorem sortByTime_increasing_aux (l : List (String × ℚ)) :
    ∀ acc : List (String × ℚ),
    (∀ p ∈ acc, ∀ q ∈ l, p.2 ≤ q.2) →
    l.Pairwise (fun a b => a.2 < b.2) →
    l.foldl (fun acc p => insertByTime p acc) acc = acc ++ l := by
  induction l with
  | nil => intro acc _ _; simp
  | cons q l ih =>
      intro acc hle hinc
      simp only [List.foldl_cons]
      have hq : insertByTime q acc = acc ++ [q] :=
        insertByTime_append q acc
          (fun p hp => hle p hp q (List.mem_cons_self _ _))
      rw [hq]
      have hpair := List.pairwise_cons.mp hinc
      have hle2 : ∀ p ∈ acc ++ [q], ∀ r ∈ l, p.2 ≤ r.2 := by
        intro p hp r hr
        rcases List.mem_append.mp hp with h | h
        · exact hle p h r (List.mem_cons_of_mem _ hr)
        · have hpq : p = q := by simpa using h
          subst hpq
          exact le_of_lt (hpair.1 r hr)
      rw [ih (acc ++ [q]) hle2 hpair.2]
      simp

theorem sortByTime_increasing (l : List (String × ℚ))
    (hinc : l.Pairwise (fun a b => a.2 < b.2)) :
    sortByTime l = l := by
  have h := sortByTime_increasing_aux l [] (by intro p hp; simp at hp) hinc
  simpa [sortByTime] using h

theorem insertByTime_perm (q : String × ℚ) (l : List (String × ℚ)) :
    (insertByTime q l).Perm (q :: l) := by
  induction l with
  | nil => exact List.Perm.refl _
  | cons r l ih =>
      show (if q.2 < r.2 then q :: r :: l else r :: insertByTime q l).Perm _
      split
      · exact List.Perm.refl _
      · exact (ih.cons r).trans (List.Perm.swap q r l)

theorem sortByTime_perm_aux (l : List (String × ℚ)) :
    ∀ acc : List (String × ℚ),
    (l.foldl (fun acc p => insertByTime p acc) acc).Perm (acc ++ l) := by
  induction l with
  | nil => intro acc; simp
  | cons q l ih =>
      intro acc
      simp only [List.foldl_cons]
      refine (ih (insertByTime q acc)).trans ?_
      refine (((insertByTime_perm q acc).append_right l).trans ?_)
      show ((q :: acc) ++ l).Perm (acc ++ q :: l)
      exact List.perm_middle.symm

theorem sortByTime_perm (l : List (String × ℚ)) :
    (sortByTime l).Perm l := by
  have h := sortByTime_perm_aux l []
  simpa [sortByTime] using h

theorem expiredKeys_eq_nil (st : CacheState) (now : ℚ)
    (hfresh : ∀ p ∈ st.cache, ¬ ((st.cache_ttl : ℚ) < now - p.2.timestamp)) :
    expiredKeys st now = [] := by
  unfold expiredKeys
  rw [List.filter_eq_nil_iff.mpr (fun p hp => by simpa using hfresh p hp)]
  rfl

theorem tailN_length_le {α : Type} (n : Nat) (l : List α) :
    (tailN n l).length ≤ n := by
  simp only [tailN, List.length_drop]
  omega

theorem tailN_of_le {α : Type} (n : Nat) (l : List α) (h : l.length ≤ n) :
    tailN n l = l := by
  unfold tailN
  rw [Nat.sub_eq_zero_of_le h]
  exact List.drop_zero l

theorem tailN_length_of_ge {α : Type} (n : Nat) (l : List α)
    (h : n ≤ l.length) : (tailN n l).length = n := by
  simp only [tailN, List.length_drop]
  omega

theorem tailN_subset {α : Type} (n : Nat) (l : List α) (p : α)
    (hp : p ∈ tailN n l) : p ∈ l :=
  List.drop_subset _ l hp

theorem tailN_append_one {α : Type} (n : Nat) (l : List α) (x : α) :
    tailN (n + 1) (l ++ [x]) = tailN n l ++ [x] := by
  unfold tailN
  rw [List.length_append]
  simp only [List.length_cons, List.length_nil]
  rw [show l.length + (0 + 1) - (n + 1) = l.length - n from by omega]
  exact List.drop_append_of_le_length (by omega)

theorem tailN_tailN_le {α : Type} (m n : Nat) (l : List α) (h : m ≤ n) :
    tailN m (tailN n l) = tailN m l := by
  unfold tailN
  rw [List.drop_drop]
  congr 1
  simp only [List.length_drop]
  omega

theorem map_tailN {α β : Type} (f : α → β) (n : Nat) (l : List α) :
    (tailN n l).map f = tailN n (l.map f) := by
  simp only [tailN, List.map_drop, List.length_map]

theorem deleteKeys_nil (st : CacheState) : deleteKeys st [] = st := rfl

theorem stateFromSuffix_cache_length (ttl : ℤ) (C : Nat)
    (code filename atype : String) (s : List (String × ℚ × PyVal)) :
    (stateFromSuffix ttl C code filename atype s).cache.length = s.length := by
  simp [stateFromSuffix]

theorem cleanup_stateFromSuffix
    (ttl : ℤ) (C : Nat) (code filename atype : String)
    (s : List (String × ℚ × PyVal)) (t : ℚ)
    (hlen : s.length ≤ C + 1)
    (hkeys : (s.map Prod.fst).Nodup)
    (htimes : s.Pairwise (fun p q => p.2.1 < q.2.1))
    (hnoexp : ∀ p ∈ s, t - p.2.1 ≤ (ttl : ℚ)) :
    cleanup_old_entries (stateFromSuffix ttl C code filename atype s) t
      = stateFromSuffix ttl C code filename atype (tailN C s) := by
  have hexp : expiredKeys (stateFromSuffix ttl C code filename atype s) t = [] := by
    apply expiredKeys_eq_nil
    intro p hp
    obtain ⟨q, hq, rfl⟩ := List.mem_map.mp hp
    exact not_lt.mpr (hnoexp q hq)
  unfold cleanup_old_entries
  rw [hexp, deleteKeys_nil]
  by_cases hC : s.length ≤ C
  · rw [if_neg (by
      rw [stateFromSuffix_cache_length]
      show ¬ s.length > C
      omega)]
    rw [tailN_of_le C s hC]
  · have hs1 : s.length = C + 1 := by omega
    obtain ⟨p0, s', rfl⟩ : ∃ p0 s', s = p0 :: s' := by
      cases s with
      | nil => simp at hs1
      | cons a l => exact ⟨a, l, rfl⟩
    have hslen : s'.length = C := by
      simp only [List.length_cons] at hs1
      omega
    have hnotin : p0.1 ∉ s'.map Prod.fst := by
      simp only [List.map_cons, List.nodup_cons] at hkeys
      exact hkeys.1
    have hsort : sortByTime
        (stateFromSuffix ttl C code filename atype (p0 :: s')).access_times
        = (stateFromSuffix ttl C code filename atype (p0 :: s')).access_times := by
      apply sortByTime_increasing
      show ((p0 :: s').map (fun p => (p.1, p.2.1))).Pairwise
        (fun a b => a.2 < b.2)
      exact List.pairwise_map.mpr htimes
    have hcount : (stateFromSuffix ttl C code filename atype
          (p0 :: s')).cache.length
        - (stateFromSuffix ttl C code filename atype (p0 :: s')).max_cache_size
        = 1 := by
      rw [stateFromSuffix_cache_length]
      show (p0 :: s').length - C = 1
      simp only [List.length_cons]
      omega
    rw [if_pos (by
      rw [stateFromSuffix_cache_length]
      show (p0 :: s').length > C
      simp only [List.length_cons]
      omega)]
    rw [hsort, hcount]
    have htake : ((stateFromSuffix ttl C code filename atype
          (p0 :: s')).access_times.take 1).map Prod.fst = [p0.1] := by
      show (((p0 :: s').map (fun p => (p.1, p.2.1))).take 1).map Prod.fst = _
      simp
    dsimp only
    rw [htake]
    rw [deleteKeys_cons, deleteKeys_nil]
    have hdelc : dictDel
        (stateFromSuffix ttl C code filename atype (p0 :: s')).cache p0.1
        = (stateFromSuffix ttl C code filename atype s').cache := by
      show dictDel
        ((p0.1, ({ result := p0.2.2, timestamp := p0.2.1,
                   filename := filename, analysis_type := atype,
                   code_size := code.length } : CacheEntry))
          :: s'.map (fun p =>
            (p.1, ({ result := p.2.2, timestamp := p.2.1,
                     filename := filename, analysis_type := atype,
                     code_size := code.length } : CacheEntry)))) p0.1
        = s'.map (fun p =>
            (p.1, ({ result := p.2.2, timestamp := p.2.1,
                     filename := filename, analysis_type := atype,
                     code_size := code.length } : CacheEntry)))
      unfold dictDel
      rw [List.filter_cons_of_neg (by simp)]
      apply dictDel_of_fresh
      intro q hq he
      obtain ⟨r, hr, rfl⟩ := List.mem_map.mp hq
      exact hnotin (he ▸ List.mem_map_of_mem Prod.fst hr)
    have hdela : dictDel
        (stateFromSuffix ttl C code filename atype (p0 :: s')).access_times p0.1
        = (stateFromSuffix ttl C code filename atype s').access_times := by
      show dictDel ((p0.1, p0.2.1) :: s'.map (fun p => (p.1, p.2.1))) p0.1
        = s'.map (fun p => (p.1, p.2.1))
      unfold dictDel
      rw [List.filter_cons_of_neg (by simp)]
      apply dictDel_of_fresh
      intro q hq he
      obtain ⟨r, hr, rfl⟩ := List.mem_map.mp hq
      exact hnotin (he ▸ List.mem_map_of_mem Prod.fst hr)
    rw [hdelc, hdela]
    have htail : tailN C (p0 :: s') = s' := by
      unfold tailN
      rw [show (p0 :: s').length - C = 1 from by
        simp only [List.length_cons]; omega]
      simp
    rw [htail]
    rfl

theorem set_key_fresh_step
    (ttl : ℤ) (C : Nat) (code filename atype : String)
    (s : List (String × ℚ × PyVal)) (k : String) (t : ℚ) (v : PyVal)
    (hlen : s.length ≤ C + 1)
    (hfresh : ∀ p ∈ s, p.1 ≠ k)
    (hkeys : (s.map Prod.fst).Nodup)
    (htimes : s.Pairwise (fun p q => p.2.1 < q.2.1))
    (hnoexp : ∀ p ∈ s, t - p.2.1 ≤ (ttl : ℚ)) :
    set_key (stateFromSuffix ttl C code filename atype s) k
        code filename atype v t
      = stateFromSuffix ttl C code filename atype
          (tailN C s ++ [(k, t, v)]) := by
  rw [set_key_enabled _ _ _ _ _ _ _ rfl]
  rw [cleanup_stateFromSuffix ttl C code filename atype s t hlen hkeys
    htimes hnoexp]
  have hfreshc : (stateFromSuffix ttl C code filename atype
      (tailN C s)).cache.lookup k = Option.none := by
    apply lookup_none_of_fresh
    intro p hp
    obtain ⟨q, hq, rfl⟩ := List.mem_map.mp hp
    exact hfresh q (tailN_subset C s q hq)
  have hfresha : (stateFromSuffix ttl C code filename atype
      (tailN C s)).access_times.lookup k = Option.none := by
    apply lookup_none_of_fresh
    intro p hp
    obtain ⟨q, hq, rfl⟩ := List.mem_map.mp hp
    exact hfresh q (tailN_subset C s q hq)
  rw [dictSet_append_of_fresh _ _ _ hfreshc,
    dictSet_append_of_fresh _ _ _ hfresha]
  simp [stateFromSuffix, List.map_append]

theorem insertRun_lru (ttl : ℤ) (C : Nat) (code filename atype : String) :
    ∀ pairs : List (String × ℚ × PyVal),
    (pairs.map Prod.fst).Nodup →
    pairs.Pairwise (fun p q => p.2.1 < q.2.1) →
    (∀ p ∈ pairs, ∀ q ∈ pairs, q.2.1 - p.2.1 ≤ (ttl : ℚ)) →
    insertRun (initState true ttl C) pairs code filename atype
      = stateFromSuffix ttl C code filename atype (tailN (C + 1) pairs) := by
  intro pairs
  induction pairs using List.reverseRecOn with
  | nil =>
      intro _ _ _
      have hnil : tailN (C + 1) ([] : List (String × ℚ × PyVal)) = [] := by
        unfold tailN
        exact List.drop_nil
      rw [hnil]
      rfl
  | append_singleton P x ih =>
      intro hkeys htimes hspan
      obtain ⟨xk, xt, xv⟩ := x
      have hkeysP : (P.map Prod.fst).Nodup := by
        rw [List.map_append] at hkeys
        exact hkeys.of_append_left
      have hdisj : ∀ a ∈ P.map Prod.fst, a ≠ xk := by
        rw [List.map_append] at hkeys
        intro a ha he
        have := (List.nodup_append.mp hkeys).2.2
        exact this ha (by simp [he])
      have htimesP : P.Pairwise (fun p q => p.2.1 < q.2.1) :=
        (List.pairwise_append.mp htimes).1
      have hspanP : ∀ p ∈ P, ∀ q ∈ P, q.2.1 - p.2.1 ≤ (ttl : ℚ) :=
        fun p hp q hq =>
          hspan p (List.mem_append_left _ hp) q (List.mem_append_left _ hq)
      have hrun : insertRun (initState true ttl C) (P ++ [(xk, xt, xv)])
            code filename atype
          = set_key (insertRun (initState true ttl C) P code filename atype)
              xk code filename atype xv xt := by
        simp [insertRun, List.foldl_append]
      rw [hrun, ih hkeysP htimesP hspanP]
      have hstep := set_key_fresh_step ttl C code filename atype
        (tailN (C + 1) P) xk xt xv
        (tailN_length_le (C + 1) P)
        (by
          intro p hp
          exact hdisj p.1
            (List.mem_map_of_mem Prod.fst (tailN_subset (C + 1) P p hp)))
        (by
          rw [map_tailN]
          exact hkeysP.sublist (List.drop_sublist _ _))
        (htimesP.sublist (List.drop_sublist _ _))
        (by
          intro p hp
          exact hspan p
            (List.mem_append_left _ (tailN_subset (C + 1) P p hp))
            (xk, xt, xv) (List.mem_append_right _ (List.mem_singleton_self _)))
      rw [hstep, tailN_tailN_le C (C + 1) P (by omega), ← tailN_append_one]

theorem cleanup_length_le (st : CacheState) (now : ℚ) (hwf : CacheWf st) :
    (cleanup_old_entries st now).cache.length ≤ st.max_cache_size
      ∨ ((cleanup_old_entries st now).cache.length ≤ st.cache.length ∧
         st.cache.length ≤ st.max_cache_size) := by
  unfold cleanup_old_entries
  have hwf1 := deleteKeys_wf st (expiredKeys st now) hwf
  have hmax1 : (deleteKeys st (expiredKeys st now)).max_cache_size
      = st.max_cache_size := (deleteKeys_config st _).2.2.1
  by_cases hgt : (deleteKeys st (expiredKeys st now)).cache.length
      > (deleteKeys st (expiredKeys st now)).max_cache_size
  · rw [if_pos hgt]
    left
    set st1 := deleteKeys st (expiredKeys st now) with hst1
    set j := st1.cache.length - st1.max_cache_size with hj
    have hperm : (sortByTime st1.access_times).Perm st1.access_times :=
      sortByTime_perm _
    have hlenacc : st1.access_times.length = st1.cache.length := by
      have h := congrArg List.length hwf1.1
      simpa using h.symm
    have hsortlen : (sortByTime st1.access_times).length
        = st1.access_times.length := hperm.length_eq
    have hnodupacc : (st1.access_times.map Prod.fst).Nodup := hwf1.1 ▸ hwf1.2
    have hnodupsort : ((sortByTime st1.access_times).map Prod.fst).Nodup :=
      ((hperm.map Prod.fst).nodup_iff).mpr hnodupacc
    have hkr_nodup : (((sortByTime st1.access_times).take j).map
        Prod.fst).Nodup := by
      rw [List.map_take]
      exact hnodupsort.sublist (List.take_sublist _ _)
    have hkr_sub : ∀ k ∈ ((sortByTime st1.access_times).take j).map Prod.fst,
        k ∈ st1.cache.map Prod.fst := by
      intro k hk
      rw [List.map_take] at hk
      have hk2 : k ∈ (sortByTime st1.access_times).map Prod.fst :=
        List.mem_of_mem_take hk
      have hk3 := (hperm.map Prod.fst).mem_iff.mp hk2
      rw [hwf1.1]
      exact hk3
    have hkr_len : (((sortByTime st1.access_times).take j).map
        Prod.fst).length = j := by
      rw [List.length_map, List.length_take, hsortlen, hlenacc]
      omega
    have hfold := foldl_dictDel_length
      (((sortByTime st1.access_times).take j).map Prod.fst)
      st1.cache hwf1.2 hkr_nodup hkr_sub
    have hcache := (deleteKeys_cache st1
      (((sortByTime st1.access_times).take j).map Prod.fst)).1
    rw [hcache, hfold, hkr_len, hj, hmax1]
    omega
  · rw [if_neg hgt]
    have hlen1 : (deleteKeys st (expiredKeys st now)).cache.length
        ≤ st.max_cache_size := by
      rw [← hmax1]
      omega
    left
    exact hlen1

theorem set_key_length_le (st : CacheState) (key code filename atype : String)
    (v : PyVal) (now : ℚ) (hwf : CacheWf st)
    (henab : st.cache_enabled = true) :
    (set_key st key code filename atype v now).cache.length
      ≤ st.max_cache_size + 1 := by
  rw [set_key_enabled st key code filename atype v now henab]
  show (dictSet (cleanup_old_entries st now).cache key
      { result := v, timestamp := now, filename := filename,
        analysis_type := atype, code_size := code.length }).length
    ≤ st.max_cache_size + 1
  have hd := dictSet_length_le (cleanup_old_entries st now).cache key
    { result := v, timestamp := now, filename := filename,
      analysis_type := atype, code_size := code.length }
  have hc := cleanup_length_le st now hwf
  rcases hc with h | h
  · omega
  · omega

/-- C1, as stated, is false: with capacity 1 the second `set` call returns
with 2 entries in the store — the eviction sweep runs before the new entry is
inserted, so the post-call invariant `|entries| ≤ capacity` fails by one. -/
theorem set_capacity_counterexample :
    (set id (set id (initState true 100 1) "a" "fa" "t" (PyVal.num 1) 0)
        "b" "fb" "t" (PyVal.num 2) 1).cache.length = 2 ∧
    (set id (set id (initState true 100 1) "a" "fa" "t" (PyVal.num 1) 0)
        "b" "fb" "t" (PyVal.num 2) 1).max_cache_size = 1 := by
  have h1 : set id (initState true 100 1) "a" "fa" "t" (PyVal.num 1) 0
      = { cache_enabled := true, cache_ttl := 100, max_cache_size := 1,
          cache := [("a|fa|t",
            { result := PyVal.num 1, timestamp := 0, filename := "fa",
              analysis_type := "t", code_size := 1 })],
          access_times := [("a|fa|t", 0)],
          hit_count := 0, miss_count := 0 } := rfl
  rw [h1]
  have hexp2 : expiredKeys
      ({ cache_enabled := true, cache_ttl := 100, max_cache_size := 1,
         cache := [("a|fa|t",
           { result := PyVal.num 1, timestamp := 0, filename := "fa",
             analysis_type := "t", code_size := 1 })],
         access_times := [("a|fa|t", 0)],
         hit_count := 0, miss_count := 0 } : CacheState) 1 = [] := by
    apply expiredKeys_eq_nil
    intro p hp
    have hp1 := List.mem_singleton.mp hp
    subst hp1
    show ¬ (((100 : ℤ) : ℚ) < 1 - 0)
    norm_num
  have hclean2 : cleanup_old_entries
      ({ cache_enabled := true, cache_ttl := 100, max_cache_size := 1,
         cache := [("a|fa|t",
           { result := PyVal.num 1, timestamp := 0, filename := "fa",
             analysis_type := "t", code_size := 1 })],
         access_times := [("a|fa|t", 0)],
         hit_count := 0, miss_count := 0 } : CacheState) 1
      = { cache_enabled := true, cache_ttl := 100, max_cache_size := 1,
          cache := [("a|fa|t",
            { result := PyVal.num 1, timestamp := 0, filename := "fa",
              analysis_type := "t", code_size := 1 })],
          access_times := [("a|fa|t", 0)],
          hit_count := 0, miss_count := 0 } := by
    unfold cleanup_old_entries
    rw [hexp2, deleteKeys_nil]
    rw [if_neg (by show ¬ ((1 : Nat) > 1); omega)]
  rw [show (set id
      ({ cache_enabled := true, cache_ttl := 100, max_cache_size := 1,
         cache := [("a|fa|t",
           { result := PyVal.num 1, timestamp := 0, filename := "fa",
             analysis_type := "t", code_size := 1 })],
         access_times := [("a|fa|t", 0)],
         hit_count := 0, miss_count := 0 } : CacheState)
      "b" "fb" "t" (PyVal.num 2) 1 : CacheState)
    = set_key
      ({ cache_enabled := true, cache_ttl := 100, max_cache_size := 1,
         cache := [("a|fa|t",
           { result := PyVal.num 1, timestamp := 0, filename := "fa",
             analysis_type := "t", code_size := 1 })],
         access_times := [("a|fa|t", 0)],
         hit_count := 0, miss_count := 0 } : CacheState)
      "b|fb|t" "b" "fb" "t" (PyVal.num 2) 1 from rfl]
  rw [set_key_enabled _ _ _ _ _ _ _ rfl]
  rw [hclean2]
  exact ⟨rfl, rfl⟩

/-- C1 (amended): with caching enabled, a `set` call on a well-formed store
returns with at most `capacity + 1` entries — the eviction sweep precedes the
insertion, so one `set` can overshoot the capacity by exactly one — and,
starting from an empty store, inserting `capacity + k` distinct keys
(`k ≥ 1`, increasing access times, no expiry in between) leaves exactly
`capacity + 1` entries: the `capacity + 1` most recently accessed keys. -/
theorem set_capacity_bound_and_lru_trace
    (st : CacheState) (key code filename atype code2 filename2 atype2 : String)
    (v : PyVal) (now : ℚ) (ttl : ℤ) (C kk : Nat)
    (pairs : List (String × ℚ × PyVal))
    (hwf : CacheWf st) (henab : st.cache_enabled = true)
    (hkeys : (pairs.map Prod.fst).Nodup)
    (htimes : pairs.Pairwise (fun p q => p.2.1 < q.2.1))
    (hspan : ∀ p ∈ pairs, ∀ q ∈ pairs, q.2.1 - p.2.1 ≤ (ttl : ℚ))
    (hlen : pairs.length = C + kk) (hkk : 1 ≤ kk) :
    (set_key st key code filename atype v now).cache.length
      ≤ st.max_cache_size + 1 ∧
    (insertRun (initState true ttl C) pairs code2 filename2
        atype2).cache.length = C + 1 ∧
    (insertRun (initState true ttl C) pairs code2 filename2 atype2).cache.map
        Prod.fst
      = (pairs.map Prod.fst).drop (pairs.length - (C + 1)) := by
  refine ⟨set_key_length_le st key code filename atype v now hwf henab,
    ?_, ?_⟩
  · rw [insertRun_lru ttl C code2 filename2 atype2 pairs hkeys htimes hspan]
    rw [stateFromSuffix_cache_length]
    exact tailN_length_of_ge (C + 1) pairs (by omega)
  · rw [insertRun_lru ttl C code2 filename2 atype2 pairs hkeys htimes hspan]
    have h1 : (stateFromSuffix ttl C code2 filename2 atype2
        (tailN (C + 1) pairs)).cache.map Prod.fst
        = (tailN (C + 1) pairs).map Prod.fst := by
      show ((tailN (C + 1) pairs).map _).map Prod.fst = _
      rw [List.map_map]
      rfl
    rw [h1, map_tailN]
    unfold tailN
    rw [List.length_map]

/-- Concrete instantiation of `set_capacity_bound_and_lru_trace`: capacity 1,
two distinct keys inserted at times 0 and 1 (the retained keys are both). -/
theorem set_capacity_bound_and_lru_trace_witness :
    (set_key (initState true 100 5) "k" "c" "f" "t"
        (PyVal.num 9) 0).cache.length
      ≤ (initState true 100 5).max_cache_size + 1 ∧
    (insertRun (initState true 100 1)
        [("a", 0, PyVal.num 1), ("b", 1, PyVal.num 2)]
        "c" "f" "t").cache.length = 1 + 1 ∧
    (insertRun (initState true 100 1)
        [("a", 0, PyVal.num 1), ("b", 1, PyVal.num 2)]
        "c" "f" "t").cache.map Prod.fst
      = (([("a", 0, PyVal.num 1), ("b", 1, PyVal.num 2)]
            : List (String × ℚ × PyVal)).map Prod.fst).drop
          (([("a", 0, PyVal.num 1), ("b", 1, PyVal.num 2)]
            : List (String × ℚ × PyVal)).length - (1 + 1)) := by
  have h := set_capacity_bound_and_lru_trace (initState true 100 5) "k" "c"
    "f" "t" "c" "f" "t" (PyVal.num 9) 0 100 1 1
    [("a", 0, PyVal.num 1), ("b", 1, PyVal.num 2)]
    ⟨rfl, List.nodup_nil⟩ rfl (by decide)
    (by
      refine List.Pairwise.cons ?_ (List.Pairwise.cons ?_ List.Pairwise.nil)
      · intro q hq
        have hq1 := List.mem_singleton.mp hq
        subst hq1
        show (0 : ℚ) < 1
        norm_num
      · intro q hq
        simp at hq)
    (by
      intro p hp q hq
      fin_cases hp <;> fin_cases hq <;>
        · show _ - _ ≤ ((100 : ℤ) : ℚ)
          norm_num)
    rfl (by omega)
  exact ⟨h.1, h.2.1, h.2.2⟩

end CacheManager
